import Mathlib

/-!
Verification of the Candy-Survival game logic.

This file gives a shallow embedding, in Lean 4, of the parts of the
Candy-Survival source that the checked properties are about:

* `core/inventory.py`   — slot-based inventory (`Inventory.remove`, `count`, …)
* `core/resources.py`   — `CandyStockpile`, `WorldProgression`
* `game/entities.py`    — `Machine` economy, `Ghost` movement
* `game/events.py`      — `EventManager` night events and resolution
* `game/states/playing.py` — the playing-state update pipeline (clock,
  day/night transitions, border shrink, neutral holder, forced day advance)

Python floats are modelled as rationals (`ℚ`), Python ints as `ℤ`/`ℕ`,
Python dicts as insertion-ordered association lists, and `None` as
`Option`.  A Python expression `d[k] -= v` that can raise `KeyError`
is modelled as an `Option`-valued update (`none` = the exception).
Randomised helpers (`random.choice`, `random.random`, position
sampling) are modelled as oracles carried by an `Env` record and are
universally quantified in the theorems; message-log, audio and sprite
side effects carry no game state and are dropped.
-/

/-- `ItemStack` from `core/inventory.py`: a stack of identical items. -/
structure ItemStack where
  item : String
  count : ℕ
  deriving DecidableEq, Repr

/-- `Inventory` from `core/inventory.py`.  Only the slot list is relevant to
the verified operations (`rows`/`cols`/`max_stack` are used by `add`, which no
checked claim touches). -/
structure Inventory where
  slots : List (Option ItemStack)
  deriving DecidableEq, Repr

/-- The list comprehension in `Inventory.remove`:
`[(stack.count, index) for index, stack in enumerate(self.slots)
  if stack and stack.item == item and stack.count > 0]`,
with `i` the index of the first slot considered. -/
def removeCandidates (item : String) : List (Option ItemStack) → ℕ → List (ℕ × ℕ)
  | [], _ => []
  | none :: rest, i => removeCandidates item rest (i + 1)
  | some st :: rest, i =>
      if st.item = item ∧ 0 < st.count then
        (st.count, i) :: removeCandidates item rest (i + 1)
      else
        removeCandidates item rest (i + 1)

/-- Python's `min(candidates, key=lambda pair: (pair[0], pair[1]))`: the first
pair that is lexicographically minimal (`none` on an empty list, where Python
would raise). -/
def pickMinPair : List (ℕ × ℕ) → Option (ℕ × ℕ)
  | [] => none
  | x :: xs =>
      some (xs.foldl
        (fun best y =>
          if y.1 < best.1 ∨ (y.1 = best.1 ∧ y.2 < best.2) then y else best) x)

/-- The slot write-back in `Inventory.remove`: `stack.count -= take` followed
by `self.slots[index] = None` when the stack empties. -/
def writeBackSlot (st : ItemStack) (take : ℕ) : Option ItemStack :=
  if st.count - take = 0 then none else some { st with count := st.count - take }

/-- The `while left > 0` loop of `Inventory.remove`.  Each iteration picks the
smallest candidate stack (ties by lowest index), takes `min(stack.count, left)`
from it and recurses.  The guard `take = 0` is unreachable (candidates always
have positive count) and only discharges termination. -/
def removeLoop (item : String) (left : ℕ) (slots : List (Option ItemStack)) :
    Bool × List (Option ItemStack) :=
  if h : left = 0 then (true, slots)
  else
    match pickMinPair (removeCandidates item slots 0) with
    | none => (false, slots)
    | some (_, index) =>
        match slots.get? index with
        | none => (false, slots)
        | some none => (false, slots)
        | some (some st) =>
            let take := min st.count left
            if htake : take = 0 then (false, slots)
            else
              removeLoop item (left - take) (slots.set index (writeBackSlot st take))
termination_by left
decreasing_by
  have h1 : 0 < left := Nat.pos_of_ne_zero h
  have h2 : 0 < take := Nat.pos_of_ne_zero htake
  omega

/-- `Inventory.remove(item, count)` from `core/inventory.py`.  Returns the
boolean result together with the updated inventory. -/
def Inventory.remove (inv : Inventory) (item : String) (count : ℤ) :
    Bool × Inventory :=
  if count ≤ 0 then (true, inv)
  else
    let r := removeLoop item count.toNat inv.slots
    (r.1, ⟨r.2⟩)

/-- Contribution of one slot to `Inventory.count(item)`. -/
def slotCount (item : String) : Option ItemStack → ℕ
  | some st => if st.item = item then st.count else 0
  | none => 0

/-- `Inventory.count(item)` on a raw slot list. -/
def countSlots (item : String) (slots : List (Option ItemStack)) : ℕ :=
  (slots.map (slotCount item)).sum

/-- `Inventory.count(item)` from `core/inventory.py`. -/
def Inventory.countItem (inv : Inventory) (item : String) : ℕ :=
  countSlots item inv.slots

/-- `Inventory.has(item, count)` from `core/inventory.py`. -/
def Inventory.hasItem (inv : Inventory) (item : String) (count : ℤ) : Bool :=
  decide ((count : ℤ) ≤ inv.countItem item)

/-- `CandyStockpile` from `core/resources.py`: an insertion-ordered dict from
candy type to (integer) amount, modelled as an association list. -/
structure CandyStockpile where
  counts : List (String × ℤ)
  deriving DecidableEq, Repr

/-- `CandyStockpile.__init__`: every listed candy type starts at 0. -/
def CandyStockpile.init (candyTypes : List String) : CandyStockpile :=
  ⟨candyTypes.map fun c => (c, 0)⟩

/-- `self._counts.get(candy_type, 0)`. -/
def CandyStockpile.amount (sp : CandyStockpile) (candyType : String) : ℤ :=
  ((sp.counts.lookup candyType).getD 0)

/-- Membership of a key in the dict. -/
def CandyStockpile.hasKey (sp : CandyStockpile) (candyType : String) : Bool :=
  (sp.counts.lookup candyType).isSome

/-- `self._counts[candy_type] = v`: update in place, or insert at the end (dict
insertion order) when the key is new. -/
def CandyStockpile.setCount (sp : CandyStockpile) (candyType : String) (v : ℤ) :
    CandyStockpile :=
  if sp.hasKey candyType then
    ⟨sp.counts.map fun p => if p.1 = candyType then (candyType, v) else p⟩
  else
    ⟨sp.counts ++ [(candyType, v)]⟩

/-- `CandyStockpile.add`. -/
def CandyStockpile.add (sp : CandyStockpile) (candyType : String) (amount : ℤ) :
    CandyStockpile :=
  sp.setCount candyType (sp.amount candyType + amount)

/-- `self._counts[candy_type] -= required`: raises `KeyError` (modelled as
`none`) when the key is absent. -/
def CandyStockpile.subAssign (sp : CandyStockpile) (candyType : String) (v : ℤ) :
    Option CandyStockpile :=
  if sp.hasKey candyType then
    some (sp.setCount candyType (sp.amount candyType - v))
  else
    none

/-- `CandyStockpile.can_afford(recipe)`. -/
def CandyStockpile.canAfford (sp : CandyStockpile) (recipe : List (String × ℤ)) :
    Bool :=
  recipe.all fun p => decide (p.2 ≤ sp.amount p.1)

/-- `CandyStockpile.consume(candy_type, amount)`. -/
def CandyStockpile.consume (sp : CandyStockpile) (candyType : String) (amount : ℤ) :
    Option (Bool × CandyStockpile) :=
  if sp.amount candyType < amount then some (false, sp)
  else (sp.subAssign candyType amount).map fun sp' => (true, sp')

/-- The deduction loop of `CandyStockpile.consume_recipe`. -/
def CandyStockpile.consumeRecipeLoop (sp : CandyStockpile)
    (recipe : List (String × ℤ)) : Option CandyStockpile :=
  match recipe with
  | [] => some sp
  | (k, v) :: rest =>
      (sp.subAssign k v).bind fun sp' => sp'.consumeRecipeLoop rest

/-- `CandyStockpile.consume_recipe(recipe)`. -/
def CandyStockpile.consumeRecipe (sp : CandyStockpile)
    (recipe : List (String × ℤ)) : Option (Bool × CandyStockpile) :=
  if ¬ sp.canAfford recipe then some (false, sp)
  else (sp.consumeRecipeLoop recipe).map fun sp' => (true, sp')

/-- `WorldProgression` from `core/resources.py`. -/
structure WorldProgression where
  expPerUpgrade : ℤ
  autoUpgradeLevels : ℤ
  worldExp : ℤ
  upgradesToday : ℕ
  deriving DecidableEq, Repr

/-- `WorldProgression.record_upgrade`. -/
def WorldProgression.recordUpgrade (wp : WorldProgression) : WorldProgression :=
  { wp with
      upgradesToday := wp.upgradesToday + 1
      worldExp := wp.worldExp + wp.expPerUpgrade }

/-- `WorldProgression.end_of_day`: returns whether no upgrade happened today and
resets the daily counter. -/
def WorldProgression.endOfDay (wp : WorldProgression) : Bool × WorldProgression :=
  (decide (wp.upgradesToday = 0), { wp with upgradesToday := 0 })

/-- `Machine` from `game/entities.py` (economy state only: sprites, rects and
chat bubbles carry no verified state). -/
structure Machine where
  candyType : String
  itemKey : Option String
  neutral : Bool
  level : ℕ
  maxLevel : ℕ
  upgradedToday : Bool
  upgradeCosts : List (ℕ × ℤ)
  bonusChances : List (ℕ × ℚ)
  deriving DecidableEq, Repr

/-- `Machine.next_upgrade_cost`. -/
def Machine.nextUpgradeCost (m : Machine) : Option ℤ :=
  let nextLevel := m.level + 1
  if m.maxLevel < nextLevel then none
  else m.upgradeCosts.lookup nextLevel

/-- `Machine.increase_level(levels)`: returns the achieved delta and the
updated machine. -/
def Machine.increaseLevel (m : Machine) (levels : ℤ) : ℕ × Machine :=
  if levels ≤ 0 then (0, m)
  else
    let target := min m.maxLevel (m.level + levels.toNat)
    let delta := target - m.level
    if 0 < delta then (delta, { m with level := target, upgradedToday := true })
    else (delta, m)

/-- `Machine.decrease_level(levels)`. -/
def Machine.decreaseLevel (m : Machine) (levels : ℤ) : ℕ × Machine :=
  if levels ≤ 0 then (0, m)
  else
    let target := max 1 (m.level - levels.toNat)
    let delta := m.level - target
    if 0 < delta then (delta, { m with level := target })
    else (delta, m)

/-- `Machine.bonus_chance`. -/
def Machine.bonusChance (m : Machine) : ℚ :=
  (m.bonusChances.lookup m.level).getD 0

/-- `Machine.reset_daily_state`. -/
def Machine.resetDailyState (m : Machine) : Machine :=
  { m with upgradedToday := false }

/-- Python truthiness of `self.item_key` (an `Optional[str]`): `None` and the
empty string are falsy. -/
def itemKeyTruthy : Option String → Bool
  | none => false
  | some s => decide (s ≠ "")

/-- `Machine.try_upgrade(stockpile, msglog, audio, world_progress)` from
`game/entities.py`.  The message-log and audio arguments carry no verified
state and are dropped; the result is `(returned bool, machine, stockpile,
world progression)`, with `none` for the `KeyError` path of
`CandyStockpile.consume`. -/
def Machine.tryUpgrade (m : Machine) (sp : CandyStockpile)
    (wp : WorldProgression) :
    Option (Bool × Machine × CandyStockpile × WorldProgression) :=
  match m.nextUpgradeCost with
  | none => some (false, m, sp, wp)
  | some cost =>
      if ¬ itemKeyTruthy m.itemKey then some (false, m, sp, wp)
      else
        (sp.consume (m.itemKey.getD "") cost).bind fun r =>
          match r with
          | (false, sp') => some (false, m, sp', wp)
          | (true, sp') =>
              let r2 := m.increaseLevel 1
              if r2.1 = 0 then some (false, r2.2, sp', wp)
              else some (true, r2.2, sp', wp.recordUpgrade)

/-- `EventDefinition` from `game/events.py`. -/
structure EventDefinition where
  name : String
  counterItem : Option String
  counterAmount : ℤ
  displayName : Option String
  deriving DecidableEq, Repr

/-- Python's `str.lower()` (per-character lowering, as `String.toLower` does). -/
def pyLower (s : String) : String :=
  ⟨s.data.map Char.toLower⟩

/-- `EventDefinition.requires_any_counter`:
`(self.counter_item or '').lower() == 'any'`. -/
def EventDefinition.requiresAnyCounter (ev : EventDefinition) : Bool :=
  decide (pyLower (ev.counterItem.getD "") = "any")

/-- The `for item_name in self.counter_items` consumption loop of the wildcard
branch of `EventManager._resolve_event`.  Returns the inventory after
consumption together with the `consumed` list. -/
def resolveAnyLoop (inv : Inventory) (items : List String) (remaining : ℕ) :
    Inventory × List (String × ℕ) :=
  match items with
  | [] => (inv, [])
  | itemName :: rest =>
      if remaining = 0 then (inv, [])
      else
        let available := inv.countItem itemName
        if available = 0 then resolveAnyLoop inv rest remaining
        else
          let take := min available remaining
          let r := inv.remove itemName (take : ℤ)
          if r.1 then
            let rec' := resolveAnyLoop r.2 rest (remaining - take)
            (rec'.1, (itemName, take) :: rec'.2)
          else
            resolveAnyLoop inv rest remaining

/-- `EventManager._resolve_event` from `game/events.py`, for the event held in
`current_event`.  Returns the success flag and the updated player inventory
(the textual requirement/consumption descriptions carry no game state). -/
def resolveEvent (ev : EventDefinition) (counterItems : List String)
    (inv : Inventory) : Bool × Inventory :=
  if ev.requiresAnyCounter then
    let needed := (max 1 ev.counterAmount).toNat
    let totalAvailable := (counterItems.map fun name => inv.countItem name).sum
    if totalAvailable < needed then (false, inv)
    else
      let r := resolveAnyLoop inv counterItems needed
      (true, r.1)
  else
    let requirementItem := ev.counterItem.getD "counter item"
    let amount := max 1 ev.counterAmount
    if ¬ inv.hasItem requirementItem amount then (false, inv)
    else (true, (inv.remove requirementItem amount).2)

/-- Python truthiness of an optional tick value (`None` and `0` are falsy),
used by `EventManager` for `next_event_time` and `hint_time`. -/
def tickTruthy : Option ℤ → Bool
  | none => false
  | some t => decide (t ≠ 0)

/-- The mutable state of `EventManager` from `game/events.py` (the audio,
message-log and callback fields live at the `PlayingState` level). -/
structure EMState where
  definitions : List EventDefinition
  counterItems : List String
  hintLong : ℤ
  hintShort : ℤ
  nightActive : Bool
  currentEvent : Option EventDefinition
  nextEventTime : Option ℤ
  hintTime : Option ℤ
  longHintEnabled : Bool
  deriving DecidableEq, Repr

/-- `EventManager._schedule_hint`, with `now = pygame.time.get_ticks()`. -/
def EMState.scheduleHint (em : EMState) (now : ℤ) : EMState :=
  if ¬ (em.nightActive ∧ tickTruthy em.nextEventTime) then
    { em with hintTime := none }
  else
    let t := (em.nextEventTime.getD 0)
    let delta := if em.longHintEnabled then em.hintLong else em.hintShort
    let hintAt := max now (t - delta)
    { em with hintTime := if hintAt < t then some hintAt else none }

/-- `EventManager.set_long_hint`. -/
def EMState.setLongHint (em : EMState) (enabled : Bool) (now : ℤ) : EMState :=
  if em.longHintEnabled = enabled then em
  else ({ em with longHintEnabled := enabled }).scheduleHint now

/-- `EventManager.begin_night(start_tick, delay_ms)`; the choice made by
`random.choice(self.definitions)` is supplied by the caller. -/
def EMState.beginNight (em : EMState) (chosen : EventDefinition)
    (startTick delayMs : ℤ) (now : ℤ) : EMState :=
  if em.definitions = [] then
    { em with
        nightActive := false
        currentEvent := none
        nextEventTime := none
        hintTime := none }
  else
    ({ em with
        nightActive := true
        currentEvent := some chosen
        nextEventTime := some (startTick + delayMs) }).scheduleHint now

/-- `EventManager.end_night`. -/
def EMState.endNight (em : EMState) : EMState :=
  { em with
      nightActive := false
      currentEvent := none
      nextEventTime := none
      hintTime := none }

/-- `DAY_START_HOUR` from `game/states/playing.py`. -/
def DAY_START_HOUR : ℚ := 6

/-- `DAY_END_HOUR` from `game/states/playing.py`. -/
def DAY_END_HOUR : ℚ := 20

/-- `CANDY_TYPES` from `game/entities.py`. -/
def CANDY_TYPES : List String :=
  ["candy_red", "candy_blue", "candy_green", "candy_yellow", "candy_purple"]

/-- `CandyGiver` daily state from `game/entities.py`. -/
structure Giver where
  cooldownUntil : ℤ
  usedToday : Bool
  deriving DecidableEq, Repr

/-- `CandyGiver.reset_daily`. -/
def Giver.resetDaily (g : Giver) : Giver :=
  { g with usedToday := false }

/-- The candy/battery respawn bookkeeping of `PlayingState` refreshed by
`_refresh_day_resources` (schedules, position pools, active counters and
ground items). -/
structure ResourceState where
  candyRespawnSchedule : List (ℤ × String)
  batteryRespawnSchedule : List ℤ
  availableCandyPositions : List (ℤ × ℤ)
  availableBatteryPositions : List (ℤ × ℤ)
  candyActiveCounts : List (String × ℕ)
  batteryActiveCount : ℕ
  items : List (String × ℕ)
  deriving DecidableEq, Repr

/-- Constant configuration of `PlayingState` (settings-derived values and map
geometry) together with oracles for the randomised helpers.
`refreshDayResources`, `spawnNpcs`, `dayHunterHome` and `chooseEvent` stand for
`_refresh_day_resources`, `_spawn_npcs`, the home selection of
`_spawn_day_hunter` and `random.choice` in `EventManager.begin_night`, whose
outcomes depend on `random` and on map geometry; `rng` is the stream of
`random.random()` draws. -/
structure Env where
  timeSpeedMultiplier : ℚ
  machineMaxLevel : ℕ
  machineVictoryLevel : ℕ
  eventSuccessCandyReward : ℤ
  eventFailureNeutralUpgradeLevels : ℤ
  holderThreshold : ℤ
  holderMin : ℤ
  holderMax : ℤ
  holderNoUpgradeBonus : ℤ
  holderUpgradePenalty : ℤ
  nightTransitionDuration : ℚ
  tileSize : ℚ
  borderStartBufferTiles : ℚ
  safeHalfWidth : ℚ
  safeHalfHeight : ℚ
  safeCenter : ℚ × ℚ
  worldWidth : ℚ
  worldHeight : ℚ
  eventNightDelayMs : ℤ
  ghostSpawnIntervalMs : ℤ
  chooseEvent : List EventDefinition → EventDefinition
  refreshDayResources : ResourceState → ResourceState
  spawnNpcs : List (ℚ × ℚ)
  dayHunterHome : ℚ × ℚ
  rng : ℕ → ℚ

/-- The mutable fields of `PlayingState` that the verified transitions touch.
`neutralMachine` is the index into `machines` of the machine aliased by
`self.neutral_machine`; `rngIdx` is the read position in the `random.random()`
stream. -/
structure GameState where
  timeMinutes : ℚ
  day : ℕ
  isNight : Bool
  lightLevel : ℚ
  events : EMState
  playerInv : Inventory
  stockpile : CandyStockpile
  machines : List Machine
  machineByCandy : List (String × ℕ)
  neutralMachine : Option ℕ
  neutralHolder : ℤ
  worldProgress : WorldProgression
  borderHalfWidth : ℚ
  borderHalfHeight : ℚ
  borderTargetHalfWidth : ℚ
  borderTargetHalfHeight : ℚ
  borderShrinkSpeedX : ℚ
  borderShrinkSpeedY : ℚ
  ghosts : List (ℚ × ℚ)
  npcs : List (ℚ × ℚ)
  dayHunter : Option (ℚ × ℚ)
  dayHunterHome : ℚ × ℚ
  dayHunterEngaged : Bool
  givers : List Giver
  resources : ResourceState
  radioBatteries : ℤ
  victoryTriggered : Bool
  nextGhostSpawnMs : ℤ
  rngIdx : ℕ

/-- `PlayingState._check_machine_victory` (the `change_state("menu")` call and
the chat/log output carry no verified state). -/
def checkMachineVictory (env : Env) (σ : GameState) : GameState :=
  if σ.victoryTriggered then σ
  else if σ.machines.any fun m => decide (env.machineVictoryLevel ≤ m.level) then
    { σ with victoryTriggered := true }
  else σ

/-- `PlayingState._change_machine_level(machine, delta, reason, ...)` for the
machine stored at index `idx` of `self.machines`; returns the signed applied
delta and the updated state. -/
def changeMachineLevel (env : Env) (idx : ℕ) (delta : ℤ)
    (recordProgress : Bool) (σ : GameState) : ℤ × GameState :=
  match σ.machines.get? idx with
  | none => (0, σ)
  | some m =>
      if delta = 0 then (0, σ)
      else if 0 < delta then
        let r := m.increaseLevel delta
        let changed := r.1
        let σ1 := { σ with machines := σ.machines.set idx r.2 }
        let σ2 :=
          if recordProgress ∧ changed ≠ 0 then
            { σ1 with
                worldProgress :=
                  changed.iterate WorldProgression.recordUpgrade σ1.worldProgress }
          else σ1
        let σ3 := if changed ≠ 0 then checkMachineVictory env σ2 else σ2
        ((changed : ℤ), σ3)
      else
        let r := m.decreaseLevel (-delta)
        let changed := r.1
        ((-(changed : ℤ)), { σ with machines := σ.machines.set idx r.2 })

/-- `self.neutral_machine.level` when the neutral machine is the entry at
`idx` (0 when the index is dangling, which never happens in the game). -/
def neutralLevel (σ : GameState) (idx : ℕ) : ℕ :=
  ((σ.machines.get? idx).map Machine.level).getD 0

/-- The `while holder >= threshold and ... level < ... max_level` loop of
`PlayingState._adjust_neutral_holder`.  `ht` records that the caller computed
`threshold = max(1, ...)`, which makes the loop terminate. -/
def holderUpLoop (env : Env) (idx : ℕ) (threshold : ℤ) (ht : 1 ≤ threshold)
    (holder : ℤ) (σ : GameState) (leveled : Bool) : ℤ × GameState × Bool :=
  if h : threshold ≤ holder ∧ neutralLevel σ idx < env.machineMaxLevel then
    holderUpLoop env idx threshold ht (holder - threshold)
      (changeMachineLevel env idx 1 false σ).2 true
  else (holder, σ, leveled)
termination_by holder.toNat
decreasing_by
  have h1 := h.1
  omega

/-- The `while holder <= -threshold and ... level > 1` loop of
`PlayingState._adjust_neutral_holder`. -/
def holderDownLoop (env : Env) (idx : ℕ) (threshold : ℤ) (ht : 1 ≤ threshold)
    (holder : ℤ) (σ : GameState) (leveled : Bool) : ℤ × GameState × Bool :=
  if h : holder ≤ -threshold ∧ 1 < neutralLevel σ idx then
    holderDownLoop env idx threshold ht (holder + threshold)
      (changeMachineLevel env idx (-1) false σ).2 true
  else (holder, σ, leveled)
termination_by (-holder).toNat
decreasing_by
  have h1 := h.1
  omega

/-- `PlayingState._adjust_neutral_holder(delta, reason)`. -/
def adjustNeutralHolder (env : Env) (delta : ℤ) (σ : GameState) : GameState :=
  match σ.neutralMachine with
  | none => σ
  | some idx =>
      let threshold := max 1 env.holderThreshold
      have ht : 1 ≤ threshold := le_max_left 1 env.holderThreshold
      let holder0 := σ.neutralHolder + delta
      let r1 := holderUpLoop env idx threshold ht holder0 σ false
      let r2 := holderDownLoop env idx threshold ht r1.1 r1.2.1 r1.2.2
      let holder := max env.holderMin (min env.holderMax r2.1)
      { r2.2.1 with neutralHolder := holder }

/-- `PlayingState._apply_holder_day_result(no_upgrades)`. -/
def applyHolderDayResult (env : Env) (noUpgrades : Bool) (σ : GameState) :
    GameState :=
  match σ.neutralMachine with
  | none => σ
  | some _ =>
      if noUpgrades then
        let delta := env.holderNoUpgradeBonus
        if delta ≠ 0 then adjustNeutralHolder env delta σ else σ
      else
        let delta := -env.holderUpgradePenalty
        if delta ≠ 0 then adjustNeutralHolder env delta σ else σ

/-- `PlayingState._begin_new_day`. -/
def beginNewDay (env : Env) (σ : GameState) : GameState :=
  let r := σ.worldProgress.endOfDay
  let σ1 := { σ with
      worldProgress := r.2
      machines := σ.machines.map Machine.resetDailyState }
  applyHolderDayResult env r.1 σ1

/-- `PlayingState._initial_border_extents`. -/
def initialBorderExtents (env : Env) : ℚ × ℚ :=
  let bufferPx := max 0 env.borderStartBufferTiles * env.tileSize
  let cx := env.safeCenter.1
  let cy := env.safeCenter.2
  let maxLeft := cx
  let maxRight := env.worldWidth - cx
  let maxTop := cy
  let maxBottom := env.worldHeight - cy
  (max env.safeHalfWidth (max maxLeft maxRight) + bufferPx,
   max env.safeHalfHeight (max maxTop maxBottom) + bufferPx)

/-- `PlayingState._recalculate_border_shrink_speed`. -/
def recalculateBorderShrinkSpeed (env : Env) (σ : GameState) : GameState :=
  let duration := max (1 / 10) env.nightTransitionDuration
  let diffX := max 0 (σ.borderHalfWidth - σ.borderTargetHalfWidth)
  let diffY := max 0 (σ.borderHalfHeight - σ.borderTargetHalfHeight)
  { σ with
      borderShrinkSpeedX := if duration ≠ 0 then diffX / duration else 0
      borderShrinkSpeedY := if duration ≠ 0 then diffY / duration else 0 }

/-- `PlayingState._on_day_start`. -/
def onDayStart (env : Env) (now : ℤ) (σ : GameState) : GameState :=
  let σ1 := { σ with isNight := false, events := σ.events.endNight }
  let σ2 := { σ1 with ghosts := ([] : List (ℚ × ℚ)) }
  let extents := initialBorderExtents env
  let σ3 := { σ2 with borderHalfWidth := extents.1, borderHalfHeight := extents.2 }
  let σ4 := recalculateBorderShrinkSpeed env σ3
  let σ5 := { σ4 with resources := env.refreshDayResources σ4.resources }
  let σ6 := { σ5 with givers := σ5.givers.map Giver.resetDaily }
  let σ7 := { σ6 with npcs := env.spawnNpcs }
  let σ8 := { σ7 with
      dayHunterHome := env.dayHunterHome
      dayHunter := some env.dayHunterHome
      dayHunterEngaged := false }
  if σ8.events.longHintEnabled then
    { σ8 with events := σ8.events.setLongHint false now }
  else σ8

/-- `PlayingState._on_night_start`. -/
def onNightStart (env : Env) (now : ℤ) (σ : GameState) : GameState :=
  let σ1 := { σ with
      isNight := true
      events := σ.events.beginNight (env.chooseEvent σ.events.definitions)
        now env.eventNightDelayMs now }
  let extents := initialBorderExtents env
  let σ2 := { σ1 with borderHalfWidth := extents.1, borderHalfHeight := extents.2 }
  let σ3 := recalculateBorderShrinkSpeed env σ2
  let σ4 := { σ3 with npcs := ([] : List (ℚ × ℚ)) }
  let σ5 := { σ4 with dayHunter := none, dayHunterEngaged := false }
  { σ5 with nextGhostSpawnMs := now + env.ghostSpawnIntervalMs }

/-- `PlayingState._force_new_day`. -/
def forceNewDay (env : Env) (now : ℤ) (σ : GameState) : GameState :=
  let σ1 := { σ with
      events := σ.events.endNight
      isNight := false
      lightLevel := 0
      timeMinutes := DAY_START_HOUR * 60
      day := σ.day + 1 }
  onDayStart env now (beginNewDay env σ1)

/-- `PlayingState._advance_time(dt)`. -/
def advanceTime (env : Env) (now : ℤ) (dt : ℚ) (σ : GameState) : GameState :=
  let minutesPerSecond := env.timeSpeedMultiplier
  let t := σ.timeMinutes + dt * minutesPerSecond
  let σ1 :=
    if 24 * 60 ≤ t then
      beginNewDay env { σ with timeMinutes := t - 24 * 60, day := σ.day + 1 }
    else { σ with timeMinutes := t }
  let dayTime :=
    DAY_START_HOUR * 60 ≤ σ1.timeMinutes ∧ σ1.timeMinutes < DAY_END_HOUR * 60
  if dayTime ∧ σ1.isNight then
    onDayStart env now { σ1 with isNight := false }
  else if ¬ dayTime ∧ ¬ σ1.isNight then
    onNightStart env now { σ1 with isNight := true }
  else σ1

/-- `PlayingState._update_border(dt)`. -/
def updateBorder (dt : ℚ) (σ : GameState) : GameState :=
  if ¬ σ.isNight then σ
  else
    let progressedW := σ.borderTargetHalfWidth < σ.borderHalfWidth
    let w :=
      if progressedW then
        max σ.borderTargetHalfWidth (σ.borderHalfWidth - σ.borderShrinkSpeedX * dt)
      else σ.borderHalfWidth
    let progressedH := σ.borderTargetHalfHeight < σ.borderHalfHeight
    let h :=
      if progressedH then
        max σ.borderTargetHalfHeight (σ.borderHalfHeight - σ.borderShrinkSpeedY * dt)
      else σ.borderHalfHeight
    if ¬ progressedW ∧ ¬ progressedH then
      { σ with
          borderHalfWidth := σ.borderTargetHalfWidth
          borderHalfHeight := σ.borderTargetHalfHeight }
    else { σ with borderHalfWidth := w, borderHalfHeight := h }

/-- `PlayingState._machine_bonus_chance(candy_type)`. -/
def machineBonusChance (σ : GameState) (candyType : String) : ℚ :=
  match (σ.machineByCandy.lookup candyType).bind fun i => σ.machines.get? i with
  | none => 0
  | some m => m.bonusChance

/-- One iteration of the loop in `PlayingState._collect_candy`: add one candy,
then roll `random.random() < chance` for a bonus candy when the machine bonus
chance is positive. -/
def collectCandyStep (env : Env) (candyType : String) (σ : GameState) :
    GameState :=
  let σ1 := { σ with stockpile := σ.stockpile.add candyType 1 }
  let chance := machineBonusChance σ1 candyType
  if 0 < chance then
    let draw := env.rng σ1.rngIdx
    let σ2 := { σ1 with rngIdx := σ1.rngIdx + 1 }
    if draw < chance then
      { σ2 with stockpile := σ2.stockpile.add candyType 1 }
    else σ2
  else σ1

/-- `PlayingState._collect_candy(candy_type, amount)` (the returned
total/bonus pair feeds only the message log). -/
def collectCandy (env : Env) (candyType : String) (amount : ℤ) (σ : GameState) :
    GameState :=
  (max 0 amount).toNat.iterate (collectCandyStep env candyType) σ

/-- `PlayingState._on_radio_hint(long_hint)` (the radio always exists in the
playing state; chat output is dropped). -/
def onRadioHintEffect (now : ℤ) (longHint : Bool) (σ : GameState) : GameState :=
  if ¬ longHint then σ
  else if σ.radioBatteries ≤ 0 then
    { σ with events := σ.events.setLongHint false now }
  else
    let remaining := σ.radioBatteries - 1
    let σ1 := { σ with radioBatteries := remaining }
    if remaining ≤ 0 then
      { σ1 with events := σ1.events.setLongHint false now }
    else σ1

/-- `EventManager.update(player_inventory)` with its callbacks
(`on_radio_message = PlayingState._radio_chat`,
`on_radio_hint = PlayingState._on_radio_hint`) inlined at the `PlayingState`
level, `now = pygame.time.get_ticks()`.  Returns the `("event", definition,
success, detail)` result (sans detail text) and the updated state. -/
def emUpdate (now : ℤ) (σ : GameState) :
    Option (EventDefinition × Bool) × GameState :=
  let em := σ.events
  if ¬ (em.nightActive ∧ tickTruthy em.nextEventTime ∧ em.currentEvent.isSome) then
    (none, σ)
  else
    let σ1 :=
      if tickTruthy em.hintTime ∧ em.hintTime.getD 0 ≤ now then
        let σh := onRadioHintEffect now em.longHintEnabled σ
        { σh with events := { σh.events with hintTime := none } }
      else σ
    if now < em.nextEventTime.getD 0 then (none, σ1)
    else
      match σ1.events.currentEvent with
      | none => (none, σ1)
      | some ev =>
          let r := resolveEvent ev σ1.events.counterItems σ1.playerInv
          let σ2 := { σ1 with
              playerInv := r.2
              events := { σ1.events with
                  currentEvent := none
                  nextEventTime := none
                  hintTime := none } }
          (some (ev, r.1), σ2)

/-- The success/failure outcome handling in `PlayingState._update_events`,
before the forced day advance. -/
def applyEventOutcome (env : Env) (success : Bool) (σ : GameState) : GameState :=
  if success then
    CANDY_TYPES.foldl
      (fun s candy => collectCandy env candy env.eventSuccessCandyReward s) σ
  else
    match σ.neutralMachine with
    | none => σ
    | some idx =>
        let levels := max 1 env.eventFailureNeutralUpgradeLevels
        (changeMachineLevel env idx levels true σ).2

/-- `PlayingState._update_events`. -/
def updateEvents (env : Env) (now : ℤ) (σ : GameState) : GameState :=
  match emUpdate now σ with
  | (none, σ1) => σ1
  | (some (_, success), σ1) =>
      forceNewDay env now (applyEventOutcome env success σ1)

/-- `PlayingState._point_in_bounds(x, y, bounds)`; bounds are
`(left, top, right, bottom)`. -/
def pointInBounds (x y : ℚ) (bounds : ℚ × ℚ × ℚ × ℚ) : Bool :=
  decide (bounds.1 ≤ x ∧ x ≤ bounds.2.2.1 ∧ bounds.2.1 ≤ y ∧ y ≤ bounds.2.2.2)

/-- `PlayingState._current_border_bounds` for a border of centre `(cx, cy)`
and half extents `(halfW, halfH)`. -/
def borderBounds (cx cy halfW halfH : ℚ) : ℚ × ℚ × ℚ × ℚ :=
  (cx - halfW, cy - halfH, cx + halfW, cy + halfH)

/-- The chase-target selection in `PlayingState._update_ghosts`:
`target = (player.x, player.y) if player_outside_border else None`. -/
def ghostChaseTarget (playerX playerY : ℚ) (bounds : ℚ × ℚ × ℚ × ℚ) :
    Option (ℚ × ℚ) :=
  if ¬ pointInBounds playerX playerY bounds then some (playerX, playerY)
  else none

/-- Squared euclidean distance (floats are modelled as rationals, so
`math.hypot` is represented by its square). -/
def distSq (p q : ℚ × ℚ) : ℚ :=
  (q.1 - p.1) ^ 2 + (q.2 - p.2) ^ 2

/-- `Ghost._move_towards(target, dt)` from `game/entities.py`.  The value
`dist` is the caller-supplied value of `math.hypot(dx, dy)` (the unique
nonnegative square root of `distSq`, which has no computable representative
over `ℚ`); the theorems constrain it by `dist ^ 2 = distSq pos target`. -/
def ghostMoveTowards (pos target : ℚ × ℚ) (speed dt dist : ℚ) : ℚ × ℚ :=
  if dist = 0 then pos
  else
    (pos.1 + (target.1 - pos.1) / dist * speed * dt,
     pos.2 + (target.2 - pos.2) / dist * speed * dt)

/-- `Machine.__init__` from `game/entities.py` (economy fields; machines start
at level 1 and `max_level = max(1, int(max_level))`). -/
def Machine.init (candyType : String) (upgradeCosts : List (ℕ × ℤ))
    (maxLevel : ℤ) (bonusChances : List (ℕ × ℚ)) (neutral : Bool)
    (itemKey : Option String) : Machine :=
  { candyType := candyType
    itemKey := itemKey
    neutral := neutral
    level := 1
    maxLevel := (max 1 maxLevel).toNat
    upgradedToday := false
    upgradeCosts := upgradeCosts
    bonusChances := bonusChances }

/-- The neutral machine as built by `PlayingState._build_structures`: the
layout row `("neutral", (0.5, 0.5), True, "candy_purple")` constructs it with
`neutral=True` and `item_key="candy_purple"`. -/
def buildNeutralMachine (upgradeCosts : List (ℕ × ℤ)) (maxLevel : ℤ)
    (bonusChances : List (ℕ × ℚ)) : Machine :=
  Machine.init "neutral" upgradeCosts maxLevel bonusChances true
    (some "candy_purple")

/-- The default upgrade-cost table of
`PlayingState._parse_machine_level_data`. -/
def defaultUpgradeCosts : List (ℕ × ℤ) := [(2, 6), (3, 10), (4, 14), (5, 20)]

/-- Specification-side description of the wildcard consumption (from the
spec's words): walk the configured counter-item kinds in listed order and take
`min(available, still needed)` from each. -/
def greedyConsumePlan (counts : String → ℕ) :
    List String → ℕ → List (String × ℕ)
  | [], _ => []
  | k :: rest, remaining =>
      let take := min (counts k) remaining
      (k, take) :: greedyConsumePlan counts rest (remaining - take)

/-- A concrete environment used by the witnesses (settings near the game's
defaults; oracles fixed arbitrarily). -/
def testEnv : Env :=
  { timeSpeedMultiplier := 100
    machineMaxLevel := 5
    machineVictoryLevel := 5
    eventSuccessCandyReward := 2
    eventFailureNeutralUpgradeLevels := 1
    holderThreshold := 4
    holderMin := -4
    holderMax := 4
    holderNoUpgradeBonus := 2
    holderUpgradePenalty := 1
    nightTransitionDuration := 3
    tileSize := 32
    borderStartBufferTiles := 0
    safeHalfWidth := 160
    safeHalfHeight := 160
    safeCenter := (500, 500)
    worldWidth := 1000
    worldHeight := 1000
    eventNightDelayMs := 30000
    ghostSpawnIntervalMs := 5000
    chooseEvent := fun _ => ⟨"stink", some "Clothes Pin", 1, none⟩
    refreshDayResources := id
    spawnNpcs := []
    dayHunterHome := (250, 250)
    rng := fun _ => 1 }

/-- A concrete playing state used by the witnesses: a night shortly before
midnight, one pending event, the neutral machine at index 0. -/
def testState : GameState :=
  { timeMinutes := 1436
    day := 1
    isNight := true
    lightLevel := 1
    events :=
      { definitions := [⟨"stink", some "Clothes Pin", 1, none⟩]
        counterItems := ["Clothes Pin"]
        hintLong := 45000
        hintShort := 10000
        nightActive := true
        currentEvent := some ⟨"stink", some "Clothes Pin", 1, none⟩
        nextEventTime := some 5
        hintTime := none
        longHintEnabled := false }
    playerInv := ⟨[some ⟨"Clothes Pin", 2⟩]⟩
    stockpile := CandyStockpile.init CANDY_TYPES
    machines := [buildNeutralMachine defaultUpgradeCosts 5 []]
    machineByCandy := [("candy_purple", 0)]
    neutralMachine := some 0
    neutralHolder := 0
    worldProgress := ⟨5, 1, 0, 0⟩
    borderHalfWidth := 500
    borderHalfHeight := 500
    borderTargetHalfWidth := 160
    borderTargetHalfHeight := 160
    borderShrinkSpeedX := 0
    borderShrinkSpeedY := 0
    ghosts := [(900, 100)]
    npcs := []
    dayHunter := none
    dayHunterHome := (250, 250)
    dayHunterEngaged := false
    givers := [⟨0, true⟩]
    resources := ⟨[], [], [], [], [], 0, []⟩
    radioBatteries := 0
    victoryTriggered := false
    nextGhostSpawnMs := 0
    rngIdx := 0 }

/-- Helper predicate for frame reasoning: `σ'` differs from `σ` at most in
the machine list, the world progression, the victory flag and the neutral
holder (the only fields `_change_machine_level`, `_adjust_neutral_holder`,
`_apply_holder_day_result` and `_begin_new_day` write). -/
def holderFrame (σ σ' : GameState) : Prop :=
  ∃ ms wpr vt nh, σ' = { σ with
    machines := ms
    worldProgress := wpr
    victoryTriggered := vt
    neutralHolder := nh }

/-- Frame predicate for `EventManager.update` (with its radio callbacks): the
only fields it writes are the player inventory, the event-manager state and
the radio battery count. -/
def emFrame (σ σ' : GameState) : Prop :=
  ∃ pi ev rb, σ' = { σ with
    playerInv := pi
    events := ev
    radioBatteries := rb }

/-- Frame predicate for the outcome handling of `PlayingState._update_events`:
the success branch (`_collect_candy` per candy type) writes only the stockpile
and the random stream position, the failure branch
(`_change_machine_level(..., record_progress=True)`) only the machine list,
the world progression and the victory flag. -/
def eventFrame (σ σ' : GameState) : Prop :=
  ∃ sp ri ms wpr vt, σ' = { σ with
    stockpile := sp
    rngIdx := ri
    machines := ms
    worldProgress := wpr
    victoryTriggered := vt }

/-! ## Association-list (Python dict) lemmas -/

theorem lookup_cons_pair (a b : String) (c : ℤ) (l : List (String × ℤ)) :
    List.lookup a ((b, c) :: l) = if a = b then some c else List.lookup a l := by
  by_cases h : a = b
  · subst h; simp [List.lookup]
  · have hb : (a == b) = false := beq_eq_false_iff_ne.mpr h
    simp [List.lookup, hb, h]

theorem lookup_mapUpdate_self (l : List (String × ℤ)) (k : String) (v : ℤ) :
    (l.map fun p => if p.1 = k then (k, v) else p).lookup k =
      if (l.lookup k).isSome then some v else none := by
  induction l with
  | nil => simp
  | cons p rest ih =>
      obtain ⟨b, c⟩ := p
      by_cases hp : b = k
      · simp [lookup_cons_pair, hp]
      · rw [show List.lookup k ((b, c) :: rest) = List.lookup k rest by
          rw [lookup_cons_pair, if_neg (Ne.symm hp)]]
        simp [lookup_cons_pair, hp, Ne.symm hp, ih]

theorem lookup_mapUpdate_other (l : List (String × ℤ)) (k k' : String) (v : ℤ)
    (h : k' ≠ k) :
    (l.map fun p => if p.1 = k then (k, v) else p).lookup k' = l.lookup k' := by
  induction l with
  | nil => simp
  | cons p rest ih =>
      obtain ⟨b, c⟩ := p
      by_cases hp : b = k
      · subst hp
        simp [lookup_cons_pair, h, ih]
      · by_cases hk' : k' = b
        · simp [lookup_cons_pair, hp, hk']
        · simp [lookup_cons_pair, hp, hk', ih]

theorem lookup_append_single (l : List (String × ℤ)) (k k' : String) (v : ℤ) :
    (l ++ [(k, v)]).lookup k' =
      ((l.lookup k').or (if k' = k then some v else none)) := by
  induction l with
  | nil => by_cases h : k' = k <;> simp [lookup_cons_pair, h]
  | cons p rest ih =>
      obtain ⟨b, c⟩ := p
      by_cases hp : k' = b
      · simp [lookup_cons_pair, hp]
      · simp [lookup_cons_pair, hp, ih]

theorem amount_setCount_self (sp : CandyStockpile) (k : String) (v : ℤ) :
    (sp.setCount k v).amount k = v := by
  unfold CandyStockpile.setCount CandyStockpile.hasKey CandyStockpile.amount
  by_cases h : (sp.counts.lookup k).isSome
  · simp only [h, if_true]
    rw [lookup_mapUpdate_self, if_pos h]
    rfl
  · simp only [h, Bool.false_eq_true, if_false]
    rw [lookup_append_single]
    rw [Option.not_isSome_iff_eq_none] at h
    simp [h]

theorem amount_setCount_other (sp : CandyStockpile) (k k' : String) (v : ℤ)
    (h : k' ≠ k) : (sp.setCount k v).amount k' = sp.amount k' := by
  unfold CandyStockpile.setCount CandyStockpile.hasKey CandyStockpile.amount
  by_cases hk : (sp.counts.lookup k).isSome
  · simp only [hk, if_true]
    rw [lookup_mapUpdate_other _ _ _ _ h]
  · simp only [hk, Bool.false_eq_true, if_false]
    rw [lookup_append_single, if_neg h]
    simp

theorem hasKey_setCount (sp : CandyStockpile) (k k' : String) (v : ℤ) :
    (sp.setCount k v).hasKey k' = (sp.hasKey k' || decide (k' = k)) := by
  by_cases h : k' = k
  · subst h
    have : (sp.setCount k' v).amount k' = v := amount_setCount_self sp k' v
    unfold CandyStockpile.setCount CandyStockpile.hasKey
    by_cases hk : (sp.counts.lookup k').isSome
    · simp only [hk, if_true]
      rw [lookup_mapUpdate_self, if_pos hk]
      simp
    · simp only [hk, Bool.false_eq_true, if_false]
      rw [lookup_append_single]
      rw [Option.not_isSome_iff_eq_none] at hk
      simp [hk]
  · unfold CandyStockpile.setCount CandyStockpile.hasKey
    by_cases hk : (sp.counts.lookup k).isSome
    · simp only [hk, if_true]
      rw [lookup_mapUpdate_other _ _ _ _ h]
      simp [h]
    · simp only [hk, Bool.false_eq_true, if_false]
      rw [lookup_append_single, if_neg h]
      simp [h]

theorem subAssign_spec (sp : CandyStockpile) (k : String) (v : ℤ)
    (h : sp.hasKey k = true) :
    sp.subAssign k v = some (sp.setCount k (sp.amount k - v)) ∧
      (sp.setCount k (sp.amount k - v)).amount k = sp.amount k - v ∧
      (∀ k', k' ≠ k → (sp.setCount k (sp.amount k - v)).amount k' = sp.amount k') ∧
      (∀ k', (sp.setCount k (sp.amount k - v)).hasKey k' = sp.hasKey k') := by
  refine ⟨by simp [CandyStockpile.subAssign, h], amount_setCount_self _ _ _,
    fun k' hk' => amount_setCount_other _ _ _ _ hk', fun k' => ?_⟩
  rw [hasKey_setCount]
  by_cases hk : k' = k
  · subst hk; simp [h]
  · simp [hk]

theorem consumeRecipeLoop_spec (recipe : List (String × ℤ)) :
    ∀ sp : CandyStockpile, (∀ p ∈ recipe, sp.hasKey p.1 = true) →
      (recipe.map Prod.fst).Nodup →
      ∃ sp', sp.consumeRecipeLoop recipe = some sp' ∧
        (∀ p ∈ recipe, sp'.amount p.1 = sp.amount p.1 - p.2) ∧
        (∀ k, k ∉ recipe.map Prod.fst → sp'.amount k = sp.amount k) ∧
        (∀ k, sp'.hasKey k = sp.hasKey k) := by
  induction recipe with
  | nil =>
      intro sp _ _
      exact ⟨sp, rfl, by simp, fun k _ => rfl, fun k => rfl⟩
  | cons p rest ih =>
      intro sp hkeys hnodup
      obtain ⟨k, v⟩ := p
      have hk : sp.hasKey k = true := hkeys (k, v) (List.mem_cons_self _ _)
      obtain ⟨heq, hself, hother, hkeep⟩ := subAssign_spec sp k v hk
      set sp1 := sp.setCount k (sp.amount k - v) with hsp1
      have hkeys1 : ∀ q ∈ rest, sp1.hasKey q.1 = true := by
        intro q hq
        rw [hkeep]
        exact hkeys q (List.mem_cons_of_mem _ hq)
      have hnodup1 : (rest.map Prod.fst).Nodup := (List.nodup_cons.mp hnodup).2
      obtain ⟨sp', heq', hmem', hout', hkeep'⟩ := ih sp1 hkeys1 hnodup1
      have hknotin : k ∉ rest.map Prod.fst := by
        have := (List.nodup_cons.mp hnodup).1
        simpa using this
      refine ⟨sp', ?_, ?_, ?_, fun k' => (hkeep' k').trans (hkeep k')⟩
      · simp [CandyStockpile.consumeRecipeLoop, heq, heq']
      · intro q hq
        rcases List.mem_cons.mp hq with hq | hq
        · subst hq
          rw [hout' k hknotin, hself]
        · have hne : q.1 ≠ k := by
            intro hcontra
            exact hknotin (hcontra ▸ (List.mem_map_of_mem Prod.fst hq))
          rw [hmem' q hq, hother q.1 hne]
      · intro k' hk'
        have hne : k' ≠ k := by
          intro hcontra
          exact hk' (hcontra ▸ List.mem_cons_self _ _)
        have hk'rest : k' ∉ rest.map Prod.fst := fun hmem =>
          hk' (List.mem_cons_of_mem _ hmem)
        rw [hout' k' hk'rest, hother k' hne]

/-- C7: `CandyStockpile.consume_recipe(r)` succeeds iff every kind in `r` is
affordable; on success exactly `r[k]` is deducted per kind and other kinds are
untouched; on failure nothing is deducted.  (Requirements are positive, as in
every recipe the game constructs; a nonpositive requirement on an untracked
kind would instead raise `KeyError` in `self._counts[candy_type] -= required`.) -/
theorem C7_consume_recipe (sp : CandyStockpile) (recipe : List (String × ℤ))
    (hnodup : (recipe.map Prod.fst).Nodup)
    (hpos : ∀ p ∈ recipe, 0 < p.2) :
    (sp.canAfford recipe = true ↔ ∀ p ∈ recipe, p.2 ≤ sp.amount p.1) ∧
    (sp.canAfford recipe = false → sp.consumeRecipe recipe = some (false, sp)) ∧
    (sp.canAfford recipe = true →
      ∃ sp', sp.consumeRecipe recipe = some (true, sp') ∧
        (∀ p ∈ recipe, sp'.amount p.1 = sp.amount p.1 - p.2) ∧
        (∀ k, k ∉ recipe.map Prod.fst → sp'.amount k = sp.amount k)) := by
  have hiff : sp.canAfford recipe = true ↔ ∀ p ∈ recipe, p.2 ≤ sp.amount p.1 := by
    simp [CandyStockpile.canAfford, List.all_eq_true]
  refine ⟨hiff, fun hfail => ?_, fun hok => ?_⟩
  · simp [CandyStockpile.consumeRecipe, hfail]
  · have hkeys : ∀ p ∈ recipe, sp.hasKey p.1 = true := by
      intro p hp
      have hle : p.2 ≤ sp.amount p.1 := hiff.mp hok p hp
      have hposp : 0 < p.2 := hpos p hp
      have hamount : 0 < sp.amount p.1 := lt_of_lt_of_le hposp hle
      unfold CandyStockpile.amount at hamount
      unfold CandyStockpile.hasKey
      cases hcase : sp.counts.lookup p.1 with
      | none => rw [hcase] at hamount; simp at hamount
      | some _ => rfl
    obtain ⟨sp', heq, hmem, hout, _⟩ := consumeRecipeLoop_spec recipe sp hkeys hnodup
    refine ⟨sp', ?_, hmem, hout⟩
    simp [CandyStockpile.consumeRecipe, hok, heq]

/-- Witness for C7: a stockpile holding 2 red and 1 blue candy affords the
recipe `{red: 2, blue: 1}` and is drained to 0/0 by it. -/
theorem C7_consume_recipe_witness :
    ((CandyStockpile.mk [("candy_red", 2), ("candy_blue", 1)]).consumeRecipe
        [("candy_red", 2), ("candy_blue", 1)]).map
      (fun r => (r.1, r.2.amount "candy_red", r.2.amount "candy_blue")) =
      some (true, 0, 0) := by
  obtain ⟨sp', heq, hmem, -⟩ :=
    (C7_consume_recipe (CandyStockpile.mk [("candy_red", 2), ("candy_blue", 1)])
      [("candy_red", 2), ("candy_blue", 1)] (by decide)
      (by intro p hp; fin_cases hp <;> decide)).2.2 (by decide)
  rw [heq]
  have h1 := hmem ("candy_red", 2) (by decide)
  have h2 := hmem ("candy_blue", 1) (by decide)
  simp only [Option.map_some']
  rw [show sp'.amount ("candy_red", (2 : ℤ)).1 = sp'.amount "candy_red" from rfl] at h1
  rw [show sp'.amount ("candy_blue", (1 : ℤ)).1 = sp'.amount "candy_blue" from rfl] at h2
  rw [h1, h2]
  decide

/-! ## Inventory (`core/inventory.py`) lemmas -/

theorem mem_removeCandidates (item : String) (slots : List (Option ItemStack)) :
    ∀ (i c j : ℕ), (c, j) ∈ removeCandidates item slots i →
      i ≤ j ∧ ∃ st, slots.get? (j - i) = some (some st) ∧
        st.item = item ∧ st.count = c ∧ 0 < c := by
  induction slots with
  | nil => intro i c j h; simp [removeCandidates] at h
  | cons s rest ih =>
      intro i c j h
      have step : (c, j) ∈ removeCandidates item rest (i + 1) →
          i ≤ j ∧ ∃ st, (s :: rest).get? (j - i) = some (some st) ∧
            st.item = item ∧ st.count = c ∧ 0 < c := by
        intro hmem
        obtain ⟨hle, st, hget, hitem, hcount, hpos⟩ := ih (i + 1) c j hmem
        refine ⟨by omega, st, ?_, hitem, hcount, hpos⟩
        rw [show j - i = (j - (i + 1)) + 1 by omega]
        simpa using hget
      cases s with
      | none => exact step (by simpa [removeCandidates] using h)
      | some st0 =>
          by_cases hcond : st0.item = item ∧ 0 < st0.count
          · rw [removeCandidates, if_pos hcond] at h
            rcases List.mem_cons.mp h with h | h
            · have hc : c = st0.count := congrArg Prod.fst h
              have hj : j = i := congrArg Prod.snd h
              subst hc; subst hj
              exact ⟨le_refl _, st0, by simp, hcond.1, rfl, hcond.2⟩
            · exact step h
          · rw [removeCandidates, if_neg hcond] at h
            exact step h

theorem pickMinPair_mem (l : List (ℕ × ℕ)) (p : ℕ × ℕ)
    (h : pickMinPair l = some p) : p ∈ l := by
  cases l with
  | nil => simp [pickMinPair] at h
  | cons x xs =>
      rw [pickMinPair, Option.some.injEq] at h
      subst h
      have : ∀ (xs : List (ℕ × ℕ)) (x : ℕ × ℕ),
          xs.foldl (fun best y =>
            if y.1 < best.1 ∨ (y.1 = best.1 ∧ y.2 < best.2) then y else best) x ∈
            x :: xs := by
        intro xs
        induction xs with
        | nil => intro x; simp
        | cons y ys ih =>
            intro x
            have hmem := ih (if y.1 < x.1 ∨ (y.1 = x.1 ∧ y.2 < x.2) then y else x)
            simp only [List.foldl_cons]
            rcases List.mem_cons.mp hmem with hcase | hcase
            · rw [hcase]
              by_cases hc : y.1 < x.1 ∨ (y.1 = x.1 ∧ y.2 < x.2) <;> simp [hc]
            · simp [hcase]
      exact this xs x

theorem removeCandidates_eq_nil_iff (item : String)
    (slots : List (Option ItemStack)) :
    ∀ i, removeCandidates item slots i = [] ↔ countSlots item slots = 0 := by
  induction slots with
  | nil => intro i; simp [removeCandidates, countSlots]
  | cons s rest ih =>
      intro i
      cases s with
      | none => simpa [removeCandidates, countSlots, slotCount] using ih (i + 1)
      | some st0 =>
          by_cases hcond : st0.item = item ∧ 0 < st0.count
          · rw [removeCandidates, if_pos hcond]
            simp only [countSlots, List.map_cons, List.sum_cons]
            constructor
            · intro h; exact absurd h (List.cons_ne_nil _ _)
            · intro h
              rw [slotCount, if_pos hcond.1] at h
              omega
          · rw [removeCandidates, if_neg hcond]
            rw [ih (i + 1)]
            simp only [countSlots, List.map_cons, List.sum_cons]
            have : slotCount item (some st0) = 0 := by
              rw [slotCount]
              by_cases hi : st0.item = item
              · have : ¬ 0 < st0.count := fun hpos => hcond ⟨hi, hpos⟩
                simp [hi]; omega
              · simp [hi]
            omega

theorem slotCount_le_countSlots (item : String) (slots : List (Option ItemStack))
    (j : ℕ) (s : Option ItemStack) (h : slots.get? j = some s) :
    slotCount item s ≤ countSlots item slots := by
  induction slots generalizing j with
  | nil => simp at h
  | cons s0 rest ih =>
      cases j with
      | zero =>
          rw [List.get?_cons_zero, Option.some.injEq] at h
          subst h
          simp [countSlots]
      | succ j' =>
          rw [List.get?_cons_succ] at h
          have hrec := ih j' h
          rw [show countSlots item (s0 :: rest) =
            slotCount item s0 + countSlots item rest from by simp [countSlots]]
          omega

theorem countSlots_set (item : String) (slots : List (Option ItemStack))
    (j : ℕ) (s v : Option ItemStack) (h : slots.get? j = some s) :
    countSlots item (slots.set j v) + slotCount item s =
      countSlots item slots + slotCount item v := by
  induction slots generalizing j with
  | nil => simp at h
  | cons s0 rest ih =>
      cases j with
      | zero =>
          rw [List.get?_cons_zero, Option.some.injEq] at h
          subst h
          simp only [List.set_cons_zero, countSlots, List.map_cons, List.sum_cons]
          omega
      | succ j' =>
          rw [List.get?_cons_succ] at h
          have hrec := ih j' h
          rw [List.set_cons_succ]
          rw [show countSlots item (s0 :: rest.set j' v) =
            slotCount item s0 + countSlots item (rest.set j' v) from by
              simp [countSlots]]
          rw [show countSlots item (s0 :: rest) =
            slotCount item s0 + countSlots item rest from by simp [countSlots]]
          omega

theorem pickMinPair_eq_none_iff (l : List (ℕ × ℕ)) :
    pickMinPair l = none ↔ l = [] := by
  cases l <;> simp [pickMinPair]

theorem removeLoop_spec (item : String) :
    ∀ left slots,
      (∀ other, other ≠ item →
        countSlots other (removeLoop item left slots).2 = countSlots other slots) ∧
      (left ≤ countSlots item slots →
        (removeLoop item left slots).1 = true ∧
        countSlots item (removeLoop item left slots).2 =
          countSlots item slots - left) ∧
      (countSlots item slots < left →
        (removeLoop item left slots).1 = false ∧
        countSlots item (removeLoop item left slots).2 = 0) := by
  intro left
  induction left using Nat.strong_induction_on with
  | _ left ih =>
    intro slots
    by_cases h0 : left = 0
    · subst h0
      have hres : removeLoop item 0 slots = (true, slots) := by
        rw [removeLoop.eq_def]; simp
      rw [hres]
      exact ⟨fun other _ => rfl, fun _ => ⟨rfl, by simp⟩,
        fun hlt => absurd hlt (by omega)⟩
    · cases hpick : pickMinPair (removeCandidates item slots 0) with
      | none =>
          have hnil : removeCandidates item slots 0 = [] :=
            (pickMinPair_eq_none_iff _).mp hpick
          have hcnt : countSlots item slots = 0 :=
            (removeCandidates_eq_nil_iff item slots 0).mp hnil
          have hres : removeLoop item left slots = (false, slots) := by
            rw [removeLoop.eq_def]
            simp [h0, hpick]
          rw [hres]
          exact ⟨fun other _ => rfl, fun hle => absurd hle (by omega),
            fun _ => ⟨rfl, hcnt⟩⟩
      | some p =>
          obtain ⟨c, index⟩ := p
          have hmem := pickMinPair_mem _ _ hpick
          obtain ⟨-, st, hget, hitem, hcount, hpos⟩ :=
            mem_removeCandidates item slots 0 c index hmem
          rw [Nat.sub_zero] at hget
          have hstbound : st.count ≤ countSlots item slots := by
            have := slotCount_le_countSlots item slots index (some st) hget
            rw [show slotCount item (some st) = st.count from by
              simp [slotCount, hitem]] at this
            exact this
          have htk : ¬ (min st.count left = 0) := by omega
          have hslotnew : slotCount item (writeBackSlot st (min st.count left)) =
              st.count - min st.count left := by
            rw [writeBackSlot]
            by_cases hz : st.count - min st.count left = 0
            · simp [hz, slotCount]
            · simp [hz, slotCount, hitem]
          have hset := countSlots_set item slots index (some st)
            (writeBackSlot st (min st.count left)) hget
          rw [hslotnew, show slotCount item (some st) = st.count from by
            simp [slotCount, hitem]] at hset
          have hcnt' : countSlots item
              (slots.set index (writeBackSlot st (min st.count left))) =
              countSlots item slots - min st.count left := by omega
          have hother' : ∀ other, other ≠ item →
              countSlots other
                (slots.set index (writeBackSlot st (min st.count left))) =
                countSlots other slots := by
            intro other hne
            have hsetO := countSlots_set other slots index (some st)
              (writeBackSlot st (min st.count left)) hget
            have h1 : slotCount other (some st) = 0 := by
              simp [slotCount, hitem, Ne.symm hne]
            have h2 : slotCount other (writeBackSlot st (min st.count left)) = 0 := by
              rw [writeBackSlot]
              by_cases hz : st.count - min st.count left = 0
              · simp [hz, slotCount]
              · simp [hz, slotCount, hitem, Ne.symm hne]
            omega
          have hstep : removeLoop item left slots =
              removeLoop item (left - min st.count left)
                (slots.set index (writeBackSlot st (min st.count left))) := by
            have hget' : slots[index]? = some (some st) := by
              simpa using hget
            have hstpos : ¬ st.count = 0 := by omega
            rw [removeLoop.eq_def]
            simp [h0, hpick, hget', htk, hstpos]
          obtain ⟨ihother, ihle, ihgt⟩ :=
            ih (left - min st.count left) (by omega)
              (slots.set index (writeBackSlot st (min st.count left)))
          refine ⟨?_, ?_, ?_⟩
          · intro other hne
            rw [hstep, ihother other hne, hother' other hne]
          · intro hle
            have hle' : left - min st.count left ≤ countSlots item
                (slots.set index (writeBackSlot st (min st.count left))) := by
              omega
            obtain ⟨hb, hc⟩ := ihle hle'
            rw [hstep]
            exact ⟨hb, by rw [hc, hcnt']; omega⟩
          · intro hgt
            have hgt' : countSlots item
                (slots.set index (writeBackSlot st (min st.count left))) <
                left - min st.count left := by
              omega
            obtain ⟨hb, hc⟩ := ihgt hgt'
            rw [hstep]
            exact ⟨hb, hc⟩

/-- C10: `Inventory.remove(item, n)` with `n > 0` returns `True` exactly when
the inventory holds at least `n` units of `item`; on success it removes
exactly `n` units and touches no other item; on failure it has already removed
every unit of `item` (no rollback); with `n ≤ 0` it returns `True` unchanged.
The concrete conjunct exercises the smallest-stack-first policy with
lowest-index tie-breaking and the deletion of emptied slots. -/
theorem C10_inventory_remove :
    (∀ (inv : Inventory) (item : String) (n : ℤ), n ≤ 0 →
        inv.remove item n = (true, inv)) ∧
    (∀ (inv : Inventory) (item : String) (n : ℤ), 0 < n →
        ((inv.remove item n).1 = true ↔ n ≤ (inv.countItem item : ℤ)) ∧
        (∀ other, other ≠ item →
          (inv.remove item n).2.countItem other = inv.countItem other) ∧
        (n ≤ (inv.countItem item : ℤ) →
          ((inv.remove item n).2.countItem item : ℤ) = inv.countItem item - n) ∧
        ((inv.countItem item : ℤ) < n →
          (inv.remove item n).1 = false ∧
          (inv.remove item n).2.countItem item = 0)) ∧
    (Inventory.remove ⟨[some ⟨"A", 5⟩, some ⟨"A", 2⟩, some ⟨"A", 2⟩]⟩ "A" 3 =
      (true, ⟨[some ⟨"A", 5⟩, none, some ⟨"A", 1⟩]⟩)) := by
  refine ⟨fun inv item n hn => by simp [Inventory.remove, hn], ?_, ?_⟩
  · intro inv item n hn
    have hne : ¬ n ≤ 0 := by omega
    obtain ⟨hother, hle, hgt⟩ := removeLoop_spec item n.toNat inv.slots
    have hrw : inv.remove item n =
        ((removeLoop item n.toNat inv.slots).1,
          ⟨(removeLoop item n.toNat inv.slots).2⟩) := by
      simp [Inventory.remove, hne]
    have hcnt : ∀ it, (Inventory.mk (removeLoop item n.toNat inv.slots).2).countItem it =
        countSlots it (removeLoop item n.toNat inv.slots).2 := fun _ => rfl
    have htnat : (n.toNat : ℤ) = n := Int.toNat_of_nonneg (by omega)
    have hcieq : inv.countItem item = countSlots item inv.slots := rfl
    refine ⟨?_, ?_, ?_, ?_⟩
    · rw [hrw]
      constructor
      · intro htrue
        by_contra hcon
        have hlt : (inv.countItem item : ℤ) < n := by omega
        have hlt' : countSlots item inv.slots < n.toNat := by
          have : (countSlots item inv.slots : ℤ) < n := hlt
          omega
        exact absurd htrue (by simp [(hgt hlt').1])
      · intro hle'
        exact (hle (by omega : n.toNat ≤ countSlots item inv.slots)).1
    · intro other hne'
      rw [hrw, hcnt, hother other hne']
      rfl
    · intro hle'
      rw [hrw, hcnt, (hle (by omega : n.toNat ≤ countSlots item inv.slots)).2]
      rw [show countSlots item inv.slots = inv.countItem item from rfl]
      omega
    · intro hlt
      have hlt' : countSlots item inv.slots < n.toNat := by
        have : (countSlots item inv.slots : ℤ) < n := hlt
        omega
      rw [hrw, hcnt]
      exact ⟨(hgt hlt').1, (hgt hlt').2⟩
  · simp only [Inventory.remove]
    norm_num
    rw [removeLoop.eq_def]
    norm_num [pickMinPair, removeCandidates, writeBackSlot]
    rw [removeLoop.eq_def]
    norm_num [pickMinPair, removeCandidates, writeBackSlot]
    rw [show Int.toNat 3 - 2 = 1 by decide, removeLoop.eq_def]
    decide

/-- Witness for C10 at concrete inputs. -/
theorem C10_inventory_remove_witness :
    Inventory.remove ⟨[some ⟨"B", 1⟩]⟩ "B" 0 = (true, ⟨[some ⟨"B", 1⟩]⟩) ∧
    (Inventory.remove ⟨[some ⟨"B", 3⟩]⟩ "B" 2).1 = true := by
  constructor
  · exact C10_inventory_remove.1 ⟨[some ⟨"B", 1⟩]⟩ "B" 0 (by decide)
  · exact ((C10_inventory_remove.2.1 ⟨[some ⟨"B", 3⟩]⟩ "B" 2 (by decide)).1).mpr
      (by decide)

theorem remove_count_spec (inv : Inventory) (item : String) (k : ℕ) (hk : 0 < k)
    (hle : k ≤ inv.countItem item) :
    (inv.remove item (k : ℤ)).1 = true ∧
    (inv.remove item (k : ℤ)).2.countItem item = inv.countItem item - k ∧
    (∀ other, other ≠ item →
      (inv.remove item (k : ℤ)).2.countItem other = inv.countItem other) := by
  have hne : ¬ (k : ℤ) ≤ 0 := by omega
  have htn : ((k : ℤ)).toNat = k := rfl
  obtain ⟨hother, hlef, -⟩ := removeLoop_spec item k inv.slots
  have hrw : inv.remove item (k : ℤ) =
      ((removeLoop item k inv.slots).1, ⟨(removeLoop item k inv.slots).2⟩) := by
    simp [Inventory.remove, hne, htn]
  obtain ⟨hb, hc⟩ := hlef (by exact hle)
  rw [hrw]
  exact ⟨hb, hc, fun other hne' => hother other hne'⟩

theorem greedyConsumePlan_zero (counts : String → ℕ) (items : List String) :
    ∀ p ∈ greedyConsumePlan counts items 0, p.2 = 0 := by
  induction items with
  | nil => simp [greedyConsumePlan]
  | cons k rest ih =>
      intro p hp
      rw [greedyConsumePlan] at hp
      rcases List.mem_cons.mp hp with h | h
      · rw [h]; simp
      · exact ih p (by simpa using h)

theorem greedyConsumePlan_congr (c1 c2 : String → ℕ) (items : List String)
    (h : ∀ k ∈ items, c1 k = c2 k) :
    ∀ remaining, greedyConsumePlan c1 items remaining =
      greedyConsumePlan c2 items remaining := by
  induction items with
  | nil => intro remaining; rfl
  | cons k rest ih =>
      intro remaining
      rw [greedyConsumePlan, greedyConsumePlan,
        h k (List.mem_cons_self _ _),
        ih (fun k' hk' => h k' (List.mem_cons_of_mem _ hk'))]

theorem greedyConsumePlan_sum (counts : String → ℕ) (items : List String) :
    ∀ remaining, ((greedyConsumePlan counts items remaining).map Prod.snd).sum =
      min remaining (items.map counts).sum := by
  induction items with
  | nil => intro remaining; simp [greedyConsumePlan]
  | cons k rest ih =>
      intro remaining
      rw [greedyConsumePlan]
      simp only [List.map_cons, List.sum_cons]
      rw [ih (remaining - min (counts k) remaining)]
      omega

theorem greedyConsumePlan_keys (counts : String → ℕ) (items : List String) :
    ∀ remaining, (greedyConsumePlan counts items remaining).map Prod.fst = items := by
  induction items with
  | nil => intro remaining; rfl
  | cons k rest ih =>
      intro remaining
      rw [greedyConsumePlan]
      simp [ih]

theorem resolveAnyLoop_spec (items : List String) :
    ∀ (inv : Inventory) (remaining : ℕ), items.Nodup →
      (∀ p ∈ greedyConsumePlan inv.countItem items remaining,
        (resolveAnyLoop inv items remaining).1.countItem p.1 =
          inv.countItem p.1 - p.2) ∧
      (∀ k, k ∉ items →
        (resolveAnyLoop inv items remaining).1.countItem k = inv.countItem k) := by
  induction items with
  | nil =>
      intro inv remaining _
      exact ⟨by simp [greedyConsumePlan], fun k _ => rfl⟩
  | cons itemName rest ih =>
      intro inv remaining hnodup
      obtain ⟨hnotin, hnodup'⟩ := List.nodup_cons.mp hnodup
      by_cases hrem : remaining = 0
      · subst hrem
        have hloop : resolveAnyLoop inv (itemName :: rest) 0 = (inv, []) := by
          rw [resolveAnyLoop]; simp
        rw [hloop]
        refine ⟨fun p hp => ?_, fun k _ => rfl⟩
        have hz := greedyConsumePlan_zero inv.countItem (itemName :: rest) p hp
        show inv.countItem p.1 = inv.countItem p.1 - p.2
        omega
      · by_cases havail : inv.countItem itemName = 0
        · have hloop : resolveAnyLoop inv (itemName :: rest) remaining =
              resolveAnyLoop inv rest remaining := by
            rw [resolveAnyLoop]; simp [hrem, havail]
          obtain ⟨ihplan, ihout⟩ := ih inv remaining hnodup'
          rw [hloop]
          constructor
          · intro p hp
            rw [greedyConsumePlan] at hp
            rcases List.mem_cons.mp hp with h | h
            · rw [h]
              show (resolveAnyLoop inv rest remaining).1.countItem itemName =
                inv.countItem itemName - (inv.countItem itemName ⊓ remaining)
              rw [ihout itemName hnotin]
              omega
            · simp only [havail, Nat.zero_min, Nat.sub_zero] at h
              exact ihplan p h
          · intro k hk
            exact ihout k (fun hmem => hk (List.mem_cons_of_mem _ hmem))
        · set take := min (inv.countItem itemName) remaining with htakedef
          have htkpos : 0 < take := by omega
          have htkle : take ≤ inv.countItem itemName := by omega
          obtain ⟨hok, hcnt, hother⟩ :=
            remove_count_spec inv itemName take htkpos htkle
          have hloop : resolveAnyLoop inv (itemName :: rest) remaining =
              ((resolveAnyLoop (inv.remove itemName (take : ℤ)).2 rest
                (remaining - take)).1,
               (itemName, take) ::
                (resolveAnyLoop (inv.remove itemName (take : ℤ)).2 rest
                  (remaining - take)).2) := by
            rw [resolveAnyLoop]
            simp only [hrem, havail, hok, ← htakedef, if_false, if_true,
              ite_false, ite_true, reduceIte]
          obtain ⟨ihplan, ihout⟩ :=
            ih (inv.remove itemName (take : ℤ)).2 (remaining - take) hnodup'
          have hcongr : greedyConsumePlan inv.countItem rest (remaining - take) =
              greedyConsumePlan (inv.remove itemName (take : ℤ)).2.countItem rest
                (remaining - take) :=
            greedyConsumePlan_congr _ _ rest
              (fun k hk => (hother k (fun he => hnotin (he ▸ hk))).symm) _
          rw [hloop]
          constructor
          · intro p hp
            rw [greedyConsumePlan] at hp
            rcases List.mem_cons.mp hp with h | h
            · rw [h]
              show (resolveAnyLoop (inv.remove itemName (take : ℤ)).2 rest
                  (remaining - take)).1.countItem itemName =
                inv.countItem itemName - (inv.countItem itemName ⊓ remaining)
              rw [ihout itemName hnotin, hcnt]
            · rw [hcongr] at h
              rw [ihplan p h, hother p.1]
              intro he
              have hp1 : p.1 ∈ rest := by
                rw [show p.1 = (Prod.fst p) from rfl,
                  ← greedyConsumePlan_keys
                    (inv.remove itemName (take : ℤ)).2.countItem rest
                    (remaining - take)]
                exact List.mem_map_of_mem Prod.fst h
              exact hnotin (he ▸ hp1)
          · intro k hk
            rw [ihout k (fun hmem => hk (List.mem_cons_of_mem _ hmem))]
            exact hother k (fun he => hk (he ▸ List.mem_cons_self _ _))

/-- C4: when an event with a wildcard (`'any'`) counter requirement resolves,
resolution succeeds iff the summed inventory count over the configured
counter-item kinds reaches `needed = max(1, counter_amount)`; on success it
consumes exactly `needed` units greedily in listed order (each kind loses
`min(available, still-needed)`, per the greedy plan), leaving other kinds
untouched. -/
theorem C4_wildcard_resolution (ev : EventDefinition)
    (counterItems : List String) (inv : Inventory)
    (hany : ev.requiresAnyCounter = true) (hnodup : counterItems.Nodup) :
    ((resolveEvent ev counterItems inv).1 = true ↔
      (max 1 ev.counterAmount).toNat ≤ (counterItems.map inv.countItem).sum) ∧
    ((max 1 ev.counterAmount).toNat ≤ (counterItems.map inv.countItem).sum →
      (∀ p ∈ greedyConsumePlan inv.countItem counterItems
          (max 1 ev.counterAmount).toNat,
        (resolveEvent ev counterItems inv).2.countItem p.1 =
          inv.countItem p.1 - p.2) ∧
      (∀ k, k ∉ counterItems →
        (resolveEvent ev counterItems inv).2.countItem k = inv.countItem k) ∧
      ((greedyConsumePlan inv.countItem counterItems
          (max 1 ev.counterAmount).toNat).map Prod.snd).sum =
        (max 1 ev.counterAmount).toNat) := by
  by_cases htot : (counterItems.map inv.countItem).sum <
      (max 1 ev.counterAmount).toNat
  · have hres : resolveEvent ev counterItems inv = (false, inv) := by
      rw [resolveEvent]
      simp only [hany, if_true, reduceIte]
      rw [if_pos htot]
    rw [hres]
    exact ⟨⟨fun hfalse => absurd hfalse (by simp),
      fun hle => absurd hle (by omega)⟩, fun hle => absurd hle (by omega)⟩
  · have hres : resolveEvent ev counterItems inv =
        (true, (resolveAnyLoop inv counterItems
          (max 1 ev.counterAmount).toNat).1) := by
      rw [resolveEvent]
      simp only [hany, if_true, reduceIte]
      rw [if_neg htot]
    obtain ⟨hplan, hout⟩ :=
      resolveAnyLoop_spec counterItems inv (max 1 ev.counterAmount).toNat hnodup
    rw [hres]
    refine ⟨⟨fun _ => by omega, fun _ => rfl⟩, fun hle => ⟨hplan, hout, ?_⟩⟩
    rw [greedyConsumePlan_sum]
    omega

/-- Witness for C4: kinds A(1), B(2) with requirement 2 — A is consumed fully,
B partially, leaving B at 1, and resolution succeeds. -/
theorem C4_wildcard_resolution_witness :
    (resolveEvent ⟨"self_deprecation", some "any", 2, none⟩ ["A", "B"]
      ⟨[some ⟨"A", 1⟩, some ⟨"B", 2⟩]⟩).1 = true ∧
    (resolveEvent ⟨"self_deprecation", some "any", 2, none⟩ ["A", "B"]
      ⟨[some ⟨"A", 1⟩, some ⟨"B", 2⟩]⟩).2.countItem "A" = 0 ∧
    (resolveEvent ⟨"self_deprecation", some "any", 2, none⟩ ["A", "B"]
      ⟨[some ⟨"A", 1⟩, some ⟨"B", 2⟩]⟩).2.countItem "B" = 1 := by
  have h := C4_wildcard_resolution ⟨"self_deprecation", some "any", 2, none⟩
    ["A", "B"] ⟨[some ⟨"A", 1⟩, some ⟨"B", 2⟩]⟩ (by decide) (by decide)
  obtain ⟨hplanA, hout, hsum⟩ := h.2 (by decide)
  refine ⟨h.1.mpr (by decide), ?_, ?_⟩
  · have := hplanA ("A", 1) (by decide)
    simpa using this
  · have := hplanA ("B", 1) (by decide)
    simpa using this

/-- C6: `Machine.try_upgrade` at max level always fails and leaves the machine
and stockpile unchanged; a successful upgrade raises the level by exactly 1,
deducts exactly the cost-table entry for the target level from the stockpile
(and nothing else), marks the machine as upgraded today, and records one world
upgrade. -/
theorem C6_try_upgrade (m : Machine) (sp : CandyStockpile)
    (wp : WorldProgression) :
    (m.maxLevel ≤ m.level → m.tryUpgrade sp wp = some (false, m, sp, wp)) ∧
    (∀ m' sp' wp', m.tryUpgrade sp wp = some (true, m', sp', wp') →
      m'.level = m.level + 1 ∧ m'.upgradedToday = true ∧
      (∃ c, m.upgradeCosts.lookup (m.level + 1) = some c ∧
        sp'.amount (m.itemKey.getD "") = sp.amount (m.itemKey.getD "") - c) ∧
      (∀ k, k ≠ m.itemKey.getD "" → sp'.amount k = sp.amount k) ∧
      wp' = wp.recordUpgrade) := by
  constructor
  · intro hmax
    have hcost : m.nextUpgradeCost = none := by
      unfold Machine.nextUpgradeCost
      rw [if_pos (by omega)]
    unfold Machine.tryUpgrade
    rw [hcost]
  · intro m' sp' wp' heq
    cases hcost : m.nextUpgradeCost with
    | none =>
        unfold Machine.tryUpgrade at heq
        rw [hcost] at heq
        simp at heq
    | some cost =>
        have hlookup : m.upgradeCosts.lookup (m.level + 1) = some cost ∧
            m.level + 1 ≤ m.maxLevel := by
          unfold Machine.nextUpgradeCost at hcost
          by_cases hmax : m.maxLevel < m.level + 1
          · rw [if_pos hmax] at hcost; simp at hcost
          · rw [if_neg hmax] at hcost; exact ⟨hcost, by omega⟩
        unfold Machine.tryUpgrade at heq
        rw [hcost] at heq
        by_cases htr : itemKeyTruthy m.itemKey
        · simp only [htr, not_true_eq_false, if_false, reduceIte] at heq
          set key := m.itemKey.getD "" with hkeydef
          unfold CandyStockpile.consume at heq
          by_cases hafford : sp.amount key < cost
          · rw [if_pos hafford] at heq
            simp at heq
          · rw [if_neg hafford] at heq
            by_cases hhas : sp.hasKey key = true
            · obtain ⟨hsub, hself, hother, -⟩ := subAssign_spec sp key cost hhas
              rw [hsub] at heq
              simp only [Option.map_some', Option.some_bind] at heq
              have hinc : m.increaseLevel 1 =
                  (1, { m with level := m.level + 1, upgradedToday := true }) := by
                unfold Machine.increaseLevel
                rw [if_neg (by omega)]
                have htarget : min m.maxLevel (m.level + (1 : ℤ).toNat) =
                    m.level + 1 := by
                  rw [show ((1 : ℤ)).toNat = 1 from rfl]
                  omega
                rw [htarget]
                rw [if_pos (by omega)]
                simp
              rw [hinc] at heq
              simp only [reduceIte, one_ne_zero, if_false] at heq
              have h4 := Option.some.inj heq
              have hm' := congrArg
                (fun r : Bool × Machine × CandyStockpile × WorldProgression =>
                  r.2.1) h4
              have hsp' := congrArg
                (fun r : Bool × Machine × CandyStockpile × WorldProgression =>
                  r.2.2.1) h4
              have hwp' := congrArg
                (fun r : Bool × Machine × CandyStockpile × WorldProgression =>
                  r.2.2.2) h4
              simp only at hm' hsp' hwp'
              refine ⟨by rw [← hm'], by rw [← hm'], ⟨cost, hlookup.1, ?_⟩,
                fun k hk => ?_, hwp'.symm⟩
              · rw [← hsp']
                exact hself
              · rw [← hsp']
                exact hother k hk
            · have : sp.subAssign key cost = none := by
                unfold CandyStockpile.subAssign
                rw [if_neg hhas]
              rw [this] at heq
              simp at heq
        · simp only [htr] at heq
          simp at heq

/-- Witness for C6: a red machine at max level fails unchanged; one at level 1
with 6 red candy banked upgrades to level 2, deducting 6. -/
theorem C6_try_upgrade_witness :
    (Machine.mk "red" (some "candy_red") false 5 5 false defaultUpgradeCosts
        []).tryUpgrade ⟨[("candy_red", 6)]⟩ ⟨5, 1, 0, 0⟩ =
      some (false,
        Machine.mk "red" (some "candy_red") false 5 5 false defaultUpgradeCosts [],
        ⟨[("candy_red", 6)]⟩, ⟨5, 1, 0, 0⟩) ∧
    ((Machine.mk "red" (some "candy_red") false 2 5 true defaultUpgradeCosts
        []).level = 1 + 1 ∧
      (Machine.mk "red" (some "candy_red") false 2 5 true defaultUpgradeCosts
        []).upgradedToday = true ∧
      (∃ c, (Machine.mk "red" (some "candy_red") false 1 5 false
          defaultUpgradeCosts []).upgradeCosts.lookup (1 + 1) = some c ∧
        (CandyStockpile.mk [("candy_red", 0)]).amount
            ((Machine.mk "red" (some "candy_red") false 1 5 false
              defaultUpgradeCosts []).itemKey.getD "") =
          (CandyStockpile.mk [("candy_red", 6)]).amount
            ((Machine.mk "red" (some "candy_red") false 1 5 false
              defaultUpgradeCosts []).itemKey.getD "") - c) ∧
      (∀ k, k ≠ (Machine.mk "red" (some "candy_red") false 1 5 false
          defaultUpgradeCosts []).itemKey.getD "" →
        (CandyStockpile.mk [("candy_red", 0)]).amount k =
          (CandyStockpile.mk [("candy_red", 6)]).amount k) ∧
      (WorldProgression.mk 5 1 5 1) =
        (WorldProgression.mk 5 1 0 0).recordUpgrade) := by
  constructor
  · exact (C6_try_upgrade
      (Machine.mk "red" (some "candy_red") false 5 5 false defaultUpgradeCosts [])
      ⟨[("candy_red", 6)]⟩ ⟨5, 1, 0, 0⟩).1 (by decide)
  · exact (C6_try_upgrade
      (Machine.mk "red" (some "candy_red") false 1 5 false defaultUpgradeCosts [])
      ⟨[("candy_red", 6)]⟩ ⟨5, 1, 0, 0⟩).2
      (Machine.mk "red" (some "candy_red") false 2 5 true defaultUpgradeCosts [])
      ⟨[("candy_red", 0)]⟩ ⟨5, 1, 5, 1⟩ (by decide)

theorem tryUpgrade_success (m : Machine) (sp : CandyStockpile)
    (wp : WorldProgression) (key : String) (cost : ℤ)
    (hkey : m.itemKey = some key) (hkne : key ≠ "")
    (hcost : m.nextUpgradeCost = some cost)
    (hafford : cost ≤ sp.amount key) (hhas : sp.hasKey key = true) :
    m.tryUpgrade sp wp =
      some (true, { m with level := m.level + 1, upgradedToday := true },
        sp.setCount key (sp.amount key - cost), wp.recordUpgrade) := by
  have hlevel : m.level + 1 ≤ m.maxLevel := by
    unfold Machine.nextUpgradeCost at hcost
    by_cases hmax : m.maxLevel < m.level + 1
    · rw [if_pos hmax] at hcost; simp at hcost
    · omega
  have htr : itemKeyTruthy m.itemKey = true := by
    rw [hkey]; simp [itemKeyTruthy, hkne]
  have hgetD : m.itemKey.getD "" = key := by rw [hkey]; rfl
  unfold Machine.tryUpgrade
  rw [hcost]
  simp only [htr, not_true_eq_false, if_false, reduceIte]
  rw [hgetD]
  unfold CandyStockpile.consume
  rw [if_neg (not_lt.mpr hafford)]
  rw [show sp.subAssign key cost =
    some (sp.setCount key (sp.amount key - cost)) from by
      unfold CandyStockpile.subAssign; rw [if_pos hhas]]
  simp only [Option.map_some', Option.some_bind]
  rw [show m.increaseLevel 1 =
    (1, { m with level := m.level + 1, upgradedToday := true }) from by
      unfold Machine.increaseLevel
      rw [if_neg (by omega)]
      rw [show min m.maxLevel (m.level + (1 : ℤ).toNat) = m.level + 1 from by
        rw [show ((1 : ℤ)).toNat = 1 from rfl]; omega]
      rw [if_pos (by omega)]
      simp]
  simp

/-- C5 counterexample: the neutral machine built by `_build_structures` (which
gives it `item_key="candy_purple"`) at level 1, with 6 purple candy banked,
upgrades successfully to level 2 — refuting "always fails, leaving the level
and the stockpile unchanged". -/
theorem C5_neutral_upgrade_counterexample :
    ((buildNeutralMachine defaultUpgradeCosts 5 []).tryUpgrade
        ⟨[("candy_purple", 6)]⟩ ⟨5, 1, 0, 0⟩).map
      (fun r => (r.1, r.2.1.level, r.2.2.1.amount "candy_purple")) =
      some (true, 2, 0) := by decide

/-- C5 (amended): the neutral machine is built with item-kind `candy_purple`,
so a manual `try_upgrade` on it follows the ordinary machine rules: it fails
(unchanged) at max level or when the stockpile cannot afford the next-level
cost, and succeeds otherwise, raising the level and deducting the cost. -/
theorem C5_neutral_upgrade_amended (upgradeCosts : List (ℕ × ℤ))
    (maxLevel : ℤ) (bonus : List (ℕ × ℚ)) (sp : CandyStockpile)
    (wp : WorldProgression) :
    (buildNeutralMachine upgradeCosts maxLevel bonus).neutral = true ∧
    (buildNeutralMachine upgradeCosts maxLevel bonus).itemKey =
      some "candy_purple" ∧
    (∀ m : Machine, m.itemKey = some "candy_purple" →
      (m.maxLevel ≤ m.level → m.tryUpgrade sp wp = some (false, m, sp, wp)) ∧
      (∀ cost, m.nextUpgradeCost = some cost →
        sp.amount "candy_purple" < cost →
        m.tryUpgrade sp wp = some (false, m, sp, wp)) ∧
      (∀ cost, m.nextUpgradeCost = some cost →
        cost ≤ sp.amount "candy_purple" → sp.hasKey "candy_purple" = true →
        m.tryUpgrade sp wp =
          some (true, { m with level := m.level + 1, upgradedToday := true },
            sp.setCount "candy_purple" (sp.amount "candy_purple" - cost),
            wp.recordUpgrade))) := by
  refine ⟨rfl, rfl, fun m hkey => ⟨?_, ?_, ?_⟩⟩
  · intro hmax
    have hcost : m.nextUpgradeCost = none := by
      unfold Machine.nextUpgradeCost
      rw [if_pos (by omega)]
    unfold Machine.tryUpgrade
    rw [hcost]
  · intro cost hcost hlt
    have htr : itemKeyTruthy m.itemKey = true := by
      rw [hkey]; simp [itemKeyTruthy]
    have hgetD : m.itemKey.getD "" = "candy_purple" := by rw [hkey]; rfl
    unfold Machine.tryUpgrade
    rw [hcost]
    simp only [htr, not_true_eq_false, if_false, reduceIte]
    rw [hgetD]
    unfold CandyStockpile.consume
    rw [if_pos hlt]
    simp
  · intro cost hcost hafford hhas
    exact tryUpgrade_success m sp wp "candy_purple" cost hkey (by decide)
      hcost hafford hhas

/-- Witness for the amended C5 at a concrete input. -/
theorem C5_neutral_upgrade_amended_witness :
    (buildNeutralMachine defaultUpgradeCosts 5 []).tryUpgrade
        ⟨[("candy_purple", 6)]⟩ ⟨5, 1, 0, 0⟩ =
      some (true,
        { buildNeutralMachine defaultUpgradeCosts 5 [] with
            level := (buildNeutralMachine defaultUpgradeCosts 5 []).level + 1
            upgradedToday := true },
        (CandyStockpile.mk [("candy_purple", 6)]).setCount "candy_purple"
          ((CandyStockpile.mk [("candy_purple", 6)]).amount "candy_purple" - 6),
        (WorldProgression.mk 5 1 0 0).recordUpgrade) :=
  (((C5_neutral_upgrade_amended defaultUpgradeCosts 5 []
      ⟨[("candy_purple", 6)]⟩ ⟨5, 1, 0, 0⟩).2.2
    (buildNeutralMachine defaultUpgradeCosts 5 []) (by decide)).2.2
    6 (by decide) (by decide) (by decide))

/-- C9 counterexample: with the Border centred at `(500, 500)` (half extents
200) and the player at `(500, 500)`, the player is inside the border, so
`_update_ghosts` passes `target = None` — no chase is triggered, contrary to
the claimed scenario. -/
theorem C9_ghost_chase_counterexample :
    ghostChaseTarget 500 500 (borderBounds 500 500 200 200) = none := by
  rw [ghostChaseTarget, if_neg]
  rw [pointInBounds, borderBounds]
  simp only [not_not, decide_eq_true_eq]
  norm_num

/-- C9 (amended): chase is triggered exactly when the player is outside the
Border; while chasing with `speed·dt` at most the ghost-player distance, each
`_move_towards` step moves the ghost along the straight-line bearing so that
its distance to the player becomes exactly `dist - speed·dt` — strictly
closer. -/
theorem C9_ghost_chase_amended :
    (∀ px py cx cy hw hh : ℚ,
      pointInBounds px py (borderBounds cx cy hw hh) = false →
      ghostChaseTarget px py (borderBounds cx cy hw hh) = some (px, py)) ∧
    (∀ px py cx cy hw hh : ℚ,
      pointInBounds px py (borderBounds cx cy hw hh) = true →
      ghostChaseTarget px py (borderBounds cx cy hw hh) = none) ∧
    (∀ (pos target : ℚ × ℚ) (speed dt dist : ℚ),
      0 < dist → dist ^ 2 = distSq pos target →
      0 < speed * dt → speed * dt ≤ dist →
      distSq (ghostMoveTowards pos target speed dt dist) target =
        (dist - speed * dt) ^ 2 ∧
      distSq (ghostMoveTowards pos target speed dt dist) target < dist ^ 2) := by
  refine ⟨fun px py cx cy hw hh h => ?_, fun px py cx cy hw hh h => ?_,
    fun pos target speed dt dist h0 hsq hs hle => ?_⟩
  · rw [ghostChaseTarget, if_pos]
    simp [h]
  · rw [ghostChaseTarget, if_neg]
    simp [h]
  · obtain ⟨x, y⟩ := pos
    obtain ⟨tx, ty⟩ := target
    rw [distSq] at hsq
    simp only at hsq
    have hd : dist ≠ 0 := ne_of_gt h0
    have hmain : distSq (ghostMoveTowards (x, y) (tx, ty) speed dt dist)
        (tx, ty) = (dist - speed * dt) ^ 2 := by
      rw [ghostMoveTowards, if_neg hd, distSq]
      simp only
      have e1 : tx - (x + (tx - x) / dist * speed * dt) =
          (tx - x) * (dist - speed * dt) / dist := by field_simp; ring
      have e2 : ty - (y + (ty - y) / dist * speed * dt) =
          (ty - y) * (dist - speed * dt) / dist := by field_simp; ring
      rw [e1, e2, div_pow, div_pow, div_add_div_same]
      rw [show ((tx - x) * (dist - speed * dt)) ^ 2 +
          ((ty - y) * (dist - speed * dt)) ^ 2 =
          ((tx - x) ^ 2 + (ty - y) ^ 2) * (dist - speed * dt) ^ 2 from by ring]
      rw [← hsq, mul_comm (dist ^ 2) ((dist - speed * dt) ^ 2), mul_div_assoc,
        div_self (pow_ne_zero 2 hd), mul_one]
    refine ⟨hmain, ?_⟩
    rw [hmain]
    nlinarith [hs, hle, h0]

/-- Witness for the amended C9: a ghost at `(800, 900)` chasing the player at
`(500, 500)` (outside the border) with `speed·dt = 50` over distance 500. -/
theorem C9_ghost_chase_amended_witness :
    pointInBounds 800 900 (borderBounds 500 500 200 200) = false ∧
    ghostChaseTarget 800 900 (borderBounds 500 500 200 200) = some (800, 900) ∧
    distSq (ghostMoveTowards (800, 900) (500, 500) 100 (1 / 2) 500) (500, 500) =
      (500 - 100 * (1 / 2)) ^ 2 ∧
    distSq (ghostMoveTowards (800, 900) (500, 500) 100 (1 / 2) 500) (500, 500) <
      500 ^ 2 := by
  have hpt : pointInBounds 800 900 (borderBounds 500 500 200 200) = false := by
    rw [pointInBounds, borderBounds]
    simp only [decide_eq_false_iff_not]
    norm_num
  have hstep := C9_ghost_chase_amended.2.2 (800, 900) (500, 500) 100 (1 / 2) 500
    (by norm_num) (by rw [distSq]; norm_num) (by norm_num) (by norm_num)
  exact ⟨hpt, C9_ghost_chase_amended.1 800 900 500 500 200 200 hpt,
    hstep.1, hstep.2⟩

/-! ## Playing-state frame lemmas -/

theorem holderFrame_refl (σ : GameState) : holderFrame σ σ :=
  ⟨σ.machines, σ.worldProgress, σ.victoryTriggered, σ.neutralHolder, rfl⟩

theorem holderFrame_trans (σ σ' σ'' : GameState) (h1 : holderFrame σ σ')
    (h2 : holderFrame σ' σ'') : holderFrame σ σ'' := by
  obtain ⟨a, b, c, d, rfl⟩ := h1
  obtain ⟨a', b', c', d', rfl⟩ := h2
  exact ⟨a', b', c', d', rfl⟩

theorem checkMachineVictory_frame (env : Env) (σ : GameState) :
    holderFrame σ (checkMachineVictory env σ) := by
  unfold checkMachineVictory
  split
  · exact holderFrame_refl σ
  split
  · exact ⟨σ.machines, σ.worldProgress, true, σ.neutralHolder, rfl⟩
  · exact holderFrame_refl σ

theorem changeMachineLevel_frame (env : Env) (idx : ℕ) (delta : ℤ)
    (recordProgress : Bool) (σ : GameState) :
    holderFrame σ (changeMachineLevel env idx delta recordProgress σ).2 := by
  unfold changeMachineLevel checkMachineVictory
  cases σ.machines.get? idx with
  | none => exact holderFrame_refl σ
  | some m =>
      simp only
      split_ifs <;> exact ⟨_, _, _, _, rfl⟩

theorem holderUpLoop_frame (env : Env) (idx : ℕ) (threshold : ℤ)
    (ht : 1 ≤ threshold) :
    ∀ (holder : ℤ) (σ : GameState) (leveled : Bool),
      holderFrame σ (holderUpLoop env idx threshold ht holder σ leveled).2.1 := by
  have main : ∀ (n : ℕ) (holder : ℤ), holder.toNat = n →
      ∀ (σ : GameState) (leveled : Bool),
        holderFrame σ (holderUpLoop env idx threshold ht holder σ leveled).2.1 := by
    intro n
    induction n using Nat.strong_induction_on with
    | _ n ih =>
        intro holder hn σ leveled
        rw [holderUpLoop.eq_def]
        split
        · next h =>
            exact holderFrame_trans _ _ _
              (changeMachineLevel_frame env idx 1 false σ)
              (ih (holder - threshold).toNat (by omega) (holder - threshold)
                rfl _ _)
        · exact holderFrame_refl σ
  exact fun holder => main holder.toNat holder rfl

theorem holderDownLoop_frame (env : Env) (idx : ℕ) (threshold : ℤ)
    (ht : 1 ≤ threshold) :
    ∀ (holder : ℤ) (σ : GameState) (leveled : Bool),
      holderFrame σ (holderDownLoop env idx threshold ht holder σ leveled).2.1 := by
  have main : ∀ (n : ℕ) (holder : ℤ), (-holder).toNat = n →
      ∀ (σ : GameState) (leveled : Bool),
        holderFrame σ (holderDownLoop env idx threshold ht holder σ leveled).2.1 := by
    intro n
    induction n using Nat.strong_induction_on with
    | _ n ih =>
        intro holder hn σ leveled
        rw [holderDownLoop.eq_def]
        split
        · next h =>
            exact holderFrame_trans _ _ _
              (changeMachineLevel_frame env idx (-1) false σ)
              (ih (-(holder + threshold)).toNat (by omega) (holder + threshold)
                rfl _ _)
        · exact holderFrame_refl σ
  exact fun holder => main (-holder).toNat holder rfl

theorem adjustNeutralHolder_frame (env : Env) (delta : ℤ) (σ : GameState) :
    holderFrame σ (adjustNeutralHolder env delta σ) := by
  unfold adjustNeutralHolder
  cases σ.neutralMachine with
  | none => exact holderFrame_refl σ
  | some idx =>
      simp only
      have h1 := holderUpLoop_frame env idx (max 1 env.holderThreshold)
        (le_max_left 1 env.holderThreshold) (σ.neutralHolder + delta) σ false
      have h2 := holderDownLoop_frame env idx (max 1 env.holderThreshold)
        (le_max_left 1 env.holderThreshold)
        (holderUpLoop env idx (max 1 env.holderThreshold)
          (le_max_left 1 env.holderThreshold) (σ.neutralHolder + delta) σ
          false).1
        (holderUpLoop env idx (max 1 env.holderThreshold)
          (le_max_left 1 env.holderThreshold) (σ.neutralHolder + delta) σ
          false).2.1
        (holderUpLoop env idx (max 1 env.holderThreshold)
          (le_max_left 1 env.holderThreshold) (σ.neutralHolder + delta) σ
          false).2.2
      refine holderFrame_trans _ _ _ (holderFrame_trans _ _ _ h1 h2) ?_
      exact ⟨_, _, _, _, rfl⟩

theorem applyHolderDayResult_frame (env : Env) (noUpgrades : Bool)
    (σ : GameState) : holderFrame σ (applyHolderDayResult env noUpgrades σ) := by
  unfold applyHolderDayResult
  cases σ.neutralMachine with
  | none => exact holderFrame_refl σ
  | some idx =>
      simp only
      split_ifs <;>
        first
          | exact adjustNeutralHolder_frame env _ σ
          | exact holderFrame_refl σ

theorem beginNewDay_frame (env : Env) (σ : GameState) :
    holderFrame σ (beginNewDay env σ) := by
  unfold beginNewDay
  simp only
  refine holderFrame_trans σ { σ with
      worldProgress := σ.worldProgress.endOfDay.2
      machines := σ.machines.map Machine.resetDailyState } _ ?_ ?_
  · exact ⟨_, _, _, _, rfl⟩
  · exact applyHolderDayResult_frame env _ _

theorem holderFrame_fields {σ σ' : GameState} (h : holderFrame σ σ') :
    σ'.timeMinutes = σ.timeMinutes ∧ σ'.day = σ.day ∧ σ'.isNight = σ.isNight ∧
    σ'.lightLevel = σ.lightLevel ∧ σ'.events = σ.events ∧
    σ'.playerInv = σ.playerInv ∧ σ'.stockpile = σ.stockpile ∧
    σ'.ghosts = σ.ghosts ∧ σ'.npcs = σ.npcs ∧ σ'.dayHunter = σ.dayHunter ∧
    σ'.dayHunterHome = σ.dayHunterHome ∧
    σ'.dayHunterEngaged = σ.dayHunterEngaged ∧ σ'.givers = σ.givers ∧
    σ'.resources = σ.resources ∧ σ'.radioBatteries = σ.radioBatteries ∧
    σ'.borderHalfWidth = σ.borderHalfWidth ∧
    σ'.borderHalfHeight = σ.borderHalfHeight ∧
    σ'.borderTargetHalfWidth = σ.borderTargetHalfWidth ∧
    σ'.borderTargetHalfHeight = σ.borderTargetHalfHeight ∧
    σ'.neutralMachine = σ.neutralMachine ∧
    σ'.machineByCandy = σ.machineByCandy ∧ σ'.rngIdx = σ.rngIdx ∧
    σ'.nextGhostSpawnMs = σ.nextGhostSpawnMs := by
  obtain ⟨a, b, c, d, rfl⟩ := h
  exact ⟨rfl, rfl, rfl, rfl, rfl, rfl, rfl, rfl, rfl, rfl, rfl, rfl, rfl, rfl,
    rfl, rfl, rfl, rfl, rfl, rfl, rfl, rfl, rfl⟩

theorem onDayStart_const (env : Env) (now : ℤ) (σ : GameState) :
    (onDayStart env now σ).timeMinutes = σ.timeMinutes ∧
    (onDayStart env now σ).day = σ.day ∧
    (onDayStart env now σ).lightLevel = σ.lightLevel := by
  unfold onDayStart recalculateBorderShrinkSpeed
  simp only
  split <;> exact ⟨rfl, rfl, rfl⟩

theorem onNightStart_const (env : Env) (now : ℤ) (σ : GameState) :
    (onNightStart env now σ).timeMinutes = σ.timeMinutes ∧
    (onNightStart env now σ).day = σ.day ∧
    (onNightStart env now σ).lightLevel = σ.lightLevel := by
  unfold onNightStart recalculateBorderShrinkSpeed
  exact ⟨rfl, rfl, rfl⟩

theorem advanceTime_time_day (env : Env) (now : ℤ) (dt : ℚ) (σ : GameState) :
    (advanceTime env now dt σ).timeMinutes =
      (if 24 * 60 ≤ σ.timeMinutes + dt * env.timeSpeedMultiplier
        then σ.timeMinutes + dt * env.timeSpeedMultiplier - 24 * 60
        else σ.timeMinutes + dt * env.timeSpeedMultiplier) ∧
    (advanceTime env now dt σ).day =
      (if 24 * 60 ≤ σ.timeMinutes + dt * env.timeSpeedMultiplier
        then σ.day + 1 else σ.day) := by
  unfold advanceTime
  simp only
  by_cases hwrap : (24 * 60 : ℚ) ≤ σ.timeMinutes + dt * env.timeSpeedMultiplier
  · rw [if_pos hwrap, if_pos hwrap, if_pos hwrap]
    obtain ⟨hT, hD, -⟩ := holderFrame_fields (beginNewDay_frame env
      { σ with
          timeMinutes := σ.timeMinutes + dt * env.timeSpeedMultiplier - 24 * 60
          day := σ.day + 1 })
    constructor
    · split_ifs with h1 h2
      · rw [(onDayStart_const env now _).1]; exact hT
      · rw [(onNightStart_const env now _).1]; exact hT
      · exact hT
    · split_ifs with h1 h2
      · rw [(onDayStart_const env now _).2.1]; exact hD
      · rw [(onNightStart_const env now _).2.1]; exact hD
      · exact hD
  · rw [if_neg hwrap, if_neg hwrap, if_neg hwrap]
    constructor
    · split_ifs with h1 h2
      · rw [(onDayStart_const env now _).1]
      · rw [(onNightStart_const env now _).1]
      · rfl
    · split_ifs with h1 h2
      · rw [(onDayStart_const env now _).2.1]
      · rw [(onNightStart_const env now _).2.1]
      · rfl

/-- C1: after `_advance_time(dt)` (with `dt` capped at 0.1 s by `update` and a
time-speed multiplier of at most 14400 game-minutes per second, so one tick
advances less than a full day), the clock stays in `[0, 1440)` minutes-of-day,
and the day counter is incremented exactly once when the advanced clock passes
1440 minutes, and at no other point of `_advance_time`. -/
theorem C1_advance_time (env : Env) (now : ℤ) (dt : ℚ) (σ : GameState)
    (hdt0 : 0 ≤ dt) (hdtcap : dt ≤ 1 / 10)
    (hm0 : 0 ≤ env.timeSpeedMultiplier)
    (hmcap : env.timeSpeedMultiplier ≤ 14400)
    (ht0 : 0 ≤ σ.timeMinutes) (ht1 : σ.timeMinutes < 24 * 60) :
    (0 ≤ (advanceTime env now dt σ).timeMinutes ∧
      (advanceTime env now dt σ).timeMinutes < 24 * 60) ∧
    ((advanceTime env now dt σ).day =
      if 24 * 60 ≤ σ.timeMinutes + dt * env.timeSpeedMultiplier then σ.day + 1
      else σ.day) := by
  have hprod : dt * env.timeSpeedMultiplier ≤ 1440 := by nlinarith
  have hprod0 : 0 ≤ dt * env.timeSpeedMultiplier := mul_nonneg hdt0 hm0
  obtain ⟨hT, hD⟩ := advanceTime_time_day env now dt σ
  refine ⟨?_, hD⟩
  rw [hT]
  split_ifs with h
  · constructor <;> linarith
  · constructor <;> linarith

/-- Witness for C1: a tick of 0.1 s at 100 minutes/s from 23:56 wraps the
clock into the next day. -/
theorem C1_advance_time_witness :
    (0 ≤ (advanceTime testEnv 0 (1 / 10) testState).timeMinutes ∧
      (advanceTime testEnv 0 (1 / 10) testState).timeMinutes < 24 * 60) ∧
    ((advanceTime testEnv 0 (1 / 10) testState).day =
      if 24 * 60 ≤ testState.timeMinutes +
          (1 / 10) * testEnv.timeSpeedMultiplier
        then testState.day + 1 else testState.day) :=
  C1_advance_time testEnv 0 (1 / 10) testState (by norm_num) (by norm_num)
    (by norm_num [testEnv]) (by norm_num [testEnv]) (by norm_num [testState])
    (by norm_num [testState])

theorem updateBorder_fields (dt : ℚ) (s : GameState) (hnight : s.isNight = true)
    (hsx : 0 ≤ s.borderShrinkSpeedX * dt) (hsy : 0 ≤ s.borderShrinkSpeedY * dt)
    (hW : s.borderTargetHalfWidth ≤ s.borderHalfWidth)
    (hH : s.borderTargetHalfHeight ≤ s.borderHalfHeight) :
    (updateBorder dt s).borderHalfWidth =
      max s.borderTargetHalfWidth
        (s.borderHalfWidth - s.borderShrinkSpeedX * dt) ∧
    (updateBorder dt s).borderHalfHeight =
      max s.borderTargetHalfHeight
        (s.borderHalfHeight - s.borderShrinkSpeedY * dt) ∧
    (updateBorder dt s).isNight = s.isNight ∧
    (updateBorder dt s).borderTargetHalfWidth = s.borderTargetHalfWidth ∧
    (updateBorder dt s).borderTargetHalfHeight = s.borderTargetHalfHeight ∧
    (updateBorder dt s).borderShrinkSpeedX = s.borderShrinkSpeedX ∧
    (updateBorder dt s).borderShrinkSpeedY = s.borderShrinkSpeedY := by
  unfold updateBorder
  rw [if_neg (by simp [hnight])]
  dsimp only
  by_cases h1 : s.borderTargetHalfWidth < s.borderHalfWidth <;>
    by_cases h2 : s.borderTargetHalfHeight < s.borderHalfHeight
  · rw [if_pos h1, if_pos h2, if_neg (by tauto)]
    exact ⟨rfl, rfl, rfl, rfl, rfl, rfl, rfl⟩
  · rw [if_pos h1, if_neg h2, if_neg (by tauto)]
    refine ⟨rfl, ?_, rfl, rfl, rfl, rfl, rfl⟩
    show s.borderHalfHeight = max s.borderTargetHalfHeight
      (s.borderHalfHeight - s.borderShrinkSpeedY * dt)
    rw [max_eq_left (by linarith)]
    linarith
  · rw [if_neg h1, if_pos h2, if_neg (by tauto)]
    refine ⟨?_, rfl, rfl, rfl, rfl, rfl, rfl⟩
    show s.borderHalfWidth = max s.borderTargetHalfWidth
      (s.borderHalfWidth - s.borderShrinkSpeedX * dt)
    rw [max_eq_left (by linarith)]
    linarith
  · rw [if_neg h1, if_neg h2, if_pos ⟨h1, h2⟩]
    refine ⟨?_, ?_, rfl, rfl, rfl, rfl, rfl⟩
    · show s.borderTargetHalfWidth = max s.borderTargetHalfWidth
        (s.borderHalfWidth - s.borderShrinkSpeedX * dt)
      rw [max_eq_left (by linarith)]
    · show s.borderTargetHalfHeight = max s.borderTargetHalfHeight
        (s.borderHalfHeight - s.borderShrinkSpeedY * dt)
      rw [max_eq_left (by linarith)]

theorem max_sub_chain (t w a b : ℚ) (hb : 0 ≤ b) :
    max t (max t (w - a) - b) = max t (w - (a + b)) := by
  rcases le_total t (w - a) with h | h
  · rw [max_eq_right h]
    congr 1
    ring
  · rw [max_eq_left h, max_eq_left (by linarith), max_eq_left (by linarith)]

theorem updateBorder_fold (dts : List ℚ) :
    ∀ s : GameState, (∀ d ∈ dts, 0 ≤ d) → s.isNight = true →
      0 ≤ s.borderShrinkSpeedX → 0 ≤ s.borderShrinkSpeedY →
      s.borderTargetHalfWidth ≤ s.borderHalfWidth →
      s.borderTargetHalfHeight ≤ s.borderHalfHeight →
      (dts.foldl (fun acc d => updateBorder d acc) s).borderHalfWidth =
        max s.borderTargetHalfWidth
          (s.borderHalfWidth - s.borderShrinkSpeedX * dts.sum) ∧
      (dts.foldl (fun acc d => updateBorder d acc) s).borderHalfHeight =
        max s.borderTargetHalfHeight
          (s.borderHalfHeight - s.borderShrinkSpeedY * dts.sum) := by
  induction dts with
  | nil =>
      intro s _ _ _ _ hW hH
      rw [List.foldl_nil, List.sum_nil, mul_zero, mul_zero, sub_zero, sub_zero]
      exact ⟨(max_eq_right hW).symm, (max_eq_right hH).symm⟩
  | cons d rest ih =>
      intro s hd hnight hsx hsy hW hH
      have hd0 : 0 ≤ d := hd d (List.mem_cons_self _ _)
      obtain ⟨eW, eH, eN, etW, etH, esX, esY⟩ :=
        updateBorder_fields d s hnight (mul_nonneg hsx hd0)
          (mul_nonneg hsy hd0) hW hH
      have h1 := ih (updateBorder d s)
        (fun d' hd' => hd d' (List.mem_cons_of_mem _ hd'))
        (by rw [eN]; exact hnight) (by rw [esX]; exact hsx)
        (by rw [esY]; exact hsy)
        (by rw [etW, eW]; exact le_max_left _ _)
        (by rw [etH, eH]; exact le_max_left _ _)
      rw [List.foldl_cons]
      obtain ⟨h1W, h1H⟩ := h1
      rw [h1W, h1H, eW, eH, etW, etH, esX, esY, List.sum_cons]
      constructor
      · rw [max_sub_chain _ _ _ _ (mul_nonneg hsx (by
          have : ∀ d' ∈ rest, 0 ≤ d' :=
            fun d' hd' => hd d' (List.mem_cons_of_mem _ hd')
          exact List.sum_nonneg this))]
        congr 1
        ring
      · rw [max_sub_chain _ _ _ _ (mul_nonneg hsy (by
          have : ∀ d' ∈ rest, 0 ≤ d' :=
            fun d' hd' => hd d' (List.mem_cons_of_mem _ hd')
          exact List.sum_nonneg this))]
        congr 1
        ring

theorem onNightStart_border (env : Env) (now : ℤ) (σ : GameState) :
    (onNightStart env now σ).borderHalfWidth = (initialBorderExtents env).1 ∧
    (onNightStart env now σ).borderHalfHeight = (initialBorderExtents env).2 ∧
    (onNightStart env now σ).borderTargetHalfWidth = σ.borderTargetHalfWidth ∧
    (onNightStart env now σ).borderTargetHalfHeight = σ.borderTargetHalfHeight ∧
    (onNightStart env now σ).isNight = true ∧
    (onNightStart env now σ).borderShrinkSpeedX =
      (if max (1 / 10) env.nightTransitionDuration ≠ 0 then
        max 0 ((initialBorderExtents env).1 - σ.borderTargetHalfWidth) /
          max (1 / 10) env.nightTransitionDuration
      else 0) ∧
    (onNightStart env now σ).borderShrinkSpeedY =
      (if max (1 / 10) env.nightTransitionDuration ≠ 0 then
        max 0 ((initialBorderExtents env).2 - σ.borderTargetHalfHeight) /
          max (1 / 10) env.nightTransitionDuration
      else 0) := by
  unfold onNightStart recalculateBorderShrinkSpeed
  exact ⟨rfl, rfl, rfl, rfl, rfl, rfl, rfl⟩

theorem initialBorderExtents_ge (env : Env) (hts : 0 ≤ env.tileSize) :
    env.safeHalfWidth ≤ (initialBorderExtents env).1 ∧
    env.safeHalfHeight ≤ (initialBorderExtents env).2 := by
  unfold initialBorderExtents
  have hbuf : 0 ≤ max 0 env.borderStartBufferTiles * env.tileSize :=
    mul_nonneg (le_max_left 0 _) hts
  constructor
  · have := le_max_left env.safeHalfWidth
      (max env.safeCenter.1 (env.worldWidth - env.safeCenter.1))
    simp only
    linarith
  · have := le_max_left env.safeHalfHeight
      (max env.safeCenter.2 (env.worldHeight - env.safeCenter.2))
    simp only
    linarith

/-- C2: at each night start `_on_night_start` resets the border to the initial
(maximal) extents, which are at least the SafeZone half extents; during the
night each `_update_border(dt)` step is monotonically non-increasing and never
drops below the SafeZone half extents; the border follows the closed form
`max(safe, start − speed·elapsed)`, so once the elapsed night time reaches the
shrink duration (`max(0.1, night_transition_duration)`) the border sits
exactly at the SafeZone half extents — the night's end value. -/
theorem C2_border_shrink (env : Env) (now : ℤ) (σ : GameState)
    (hts : 0 ≤ env.tileSize)
    (htW : σ.borderTargetHalfWidth = env.safeHalfWidth)
    (htH : σ.borderTargetHalfHeight = env.safeHalfHeight) :
    ((onNightStart env now σ).borderHalfWidth = (initialBorderExtents env).1 ∧
      (onNightStart env now σ).borderHalfHeight =
        (initialBorderExtents env).2 ∧
      env.safeHalfWidth ≤ (initialBorderExtents env).1 ∧
      env.safeHalfHeight ≤ (initialBorderExtents env).2) ∧
    (∀ (dt : ℚ) (s : GameState), 0 ≤ dt → s.isNight = true →
      0 ≤ s.borderShrinkSpeedX → 0 ≤ s.borderShrinkSpeedY →
      s.borderTargetHalfWidth = env.safeHalfWidth →
      s.borderTargetHalfHeight = env.safeHalfHeight →
      env.safeHalfWidth ≤ s.borderHalfWidth →
      env.safeHalfHeight ≤ s.borderHalfHeight →
      ((updateBorder dt s).borderHalfWidth ≤ s.borderHalfWidth ∧
        env.safeHalfWidth ≤ (updateBorder dt s).borderHalfWidth) ∧
      ((updateBorder dt s).borderHalfHeight ≤ s.borderHalfHeight ∧
        env.safeHalfHeight ≤ (updateBorder dt s).borderHalfHeight)) ∧
    (∀ dts : List ℚ, (∀ d ∈ dts, 0 ≤ d) →
      ((dts.foldl (fun acc d => updateBorder d acc)
          (onNightStart env now σ)).borderHalfWidth =
        max env.safeHalfWidth
          ((initialBorderExtents env).1 -
            (onNightStart env now σ).borderShrinkSpeedX * dts.sum) ∧
      (dts.foldl (fun acc d => updateBorder d acc)
          (onNightStart env now σ)).borderHalfHeight =
        max env.safeHalfHeight
          ((initialBorderExtents env).2 -
            (onNightStart env now σ).borderShrinkSpeedY * dts.sum)) ∧
      (max (1 / 10) env.nightTransitionDuration ≤ dts.sum →
        (dts.foldl (fun acc d => updateBorder d acc)
            (onNightStart env now σ)).borderHalfWidth = env.safeHalfWidth ∧
        (dts.foldl (fun acc d => updateBorder d acc)
            (onNightStart env now σ)).borderHalfHeight = env.safeHalfHeight)) := by
  obtain ⟨hge1, hge2⟩ := initialBorderExtents_ge env hts
  obtain ⟨eW, eH, etW, etH, eN, esX, esY⟩ := onNightStart_border env now σ
  have hdur : (0 : ℚ) < max (1 / 10) env.nightTransitionDuration :=
    lt_of_lt_of_le (by norm_num) (le_max_left _ _)
  have hdurne : max (1 / 10) env.nightTransitionDuration ≠ 0 := ne_of_gt hdur
  rw [if_pos hdurne] at esX esY
  have hsX0 : 0 ≤ (onNightStart env now σ).borderShrinkSpeedX := by
    rw [esX]
    exact div_nonneg (le_max_left 0 _) (le_of_lt hdur)
  have hsY0 : 0 ≤ (onNightStart env now σ).borderShrinkSpeedY := by
    rw [esY]
    exact div_nonneg (le_max_left 0 _) (le_of_lt hdur)
  refine ⟨⟨eW, eH, hge1, hge2⟩, ?_, ?_⟩
  · intro dt s hdt hnight hsx hsy hstW hstH hW hH
    obtain ⟨fW, fH, -, -, -, -, -⟩ := updateBorder_fields dt s hnight
      (mul_nonneg hsx hdt) (mul_nonneg hsy hdt) (by rw [hstW]; exact hW)
      (by rw [hstH]; exact hH)
    rw [fW, fH, hstW, hstH]
    constructor
    · exact ⟨max_le hW (by linarith [mul_nonneg hsx hdt]), le_max_left _ _⟩
    · exact ⟨max_le hH (by linarith [mul_nonneg hsy hdt]), le_max_left _ _⟩
  · intro dts hdts
    obtain ⟨gW, gH⟩ := updateBorder_fold dts (onNightStart env now σ) hdts eN
      hsX0 hsY0 (by rw [etW, htW, eW]; exact hge1)
      (by rw [etH, htH, eH]; exact hge2)
    rw [etW, htW] at gW
    rw [etH, htH] at gH
    rw [eW] at gW
    rw [eH] at gH
    refine ⟨⟨gW, gH⟩, fun hend => ?_⟩
    have hsum0 : 0 ≤ dts.sum := List.sum_nonneg hdts
    constructor
    · rw [gW]
      apply max_eq_left
      have hmul : (onNightStart env now σ).borderShrinkSpeedX *
          (max (1 / 10) env.nightTransitionDuration) =
          max 0 ((initialBorderExtents env).1 - σ.borderTargetHalfWidth) := by
        rw [esX]
        field_simp
      have hstep : (onNightStart env now σ).borderShrinkSpeedX *
          (max (1 / 10) env.nightTransitionDuration) ≤
          (onNightStart env now σ).borderShrinkSpeedX * dts.sum :=
        mul_le_mul_of_nonneg_left hend hsX0
      rw [hmul] at hstep
      rw [htW] at hstep
      have : (initialBorderExtents env).1 - env.safeHalfWidth ≤
          max 0 ((initialBorderExtents env).1 - env.safeHalfWidth) :=
        le_max_right _ _
      linarith
    · rw [gH]
      apply max_eq_left
      have hmul : (onNightStart env now σ).borderShrinkSpeedY *
          (max (1 / 10) env.nightTransitionDuration) =
          max 0 ((initialBorderExtents env).2 - σ.borderTargetHalfHeight) := by
        rw [esY]
        field_simp
      have hstep : (onNightStart env now σ).borderShrinkSpeedY *
          (max (1 / 10) env.nightTransitionDuration) ≤
          (onNightStart env now σ).borderShrinkSpeedY * dts.sum :=
        mul_le_mul_of_nonneg_left hend hsY0
      rw [hmul] at hstep
      rw [htH] at hstep
      have : (initialBorderExtents env).2 - env.safeHalfHeight ≤
          max 0 ((initialBorderExtents env).2 - env.safeHalfHeight) :=
        le_max_right _ _
      linarith

/-- Witness for C2 at the concrete test state (targets equal the SafeZone half
extents, as `__init__` sets them). -/
theorem C2_border_shrink_witness :
    (onNightStart testEnv 0 testState).borderHalfWidth =
      (initialBorderExtents testEnv).1 ∧
    (onNightStart testEnv 0 testState).borderHalfHeight =
      (initialBorderExtents testEnv).2 ∧
    testEnv.safeHalfWidth ≤ (initialBorderExtents testEnv).1 ∧
    testEnv.safeHalfHeight ≤ (initialBorderExtents testEnv).2 :=
  (C2_border_shrink testEnv 0 testState (by norm_num [testEnv])
    (by norm_num [testState, testEnv]) (by norm_num [testState, testEnv])).1

theorem increaseLevel_one (m : Machine) (h : m.level < m.maxLevel) :
    m.increaseLevel 1 =
      (1, { m with level := m.level + 1, upgradedToday := true }) := by
  unfold Machine.increaseLevel
  rw [if_neg (by omega)]
  rw [show min m.maxLevel (m.level + (1 : ℤ).toNat) = m.level + 1 from by
    rw [show ((1 : ℤ)).toNat = 1 from rfl]; omega]
  rw [if_pos (by omega)]
  simp

theorem checkMachineVictory_eqs (env : Env) (σ : GameState) :
    (checkMachineVictory env σ).machines = σ.machines ∧
    (checkMachineVictory env σ).neutralHolder = σ.neutralHolder ∧
    (checkMachineVictory env σ).neutralMachine = σ.neutralMachine ∧
    (checkMachineVictory env σ).worldProgress = σ.worldProgress := by
  unfold checkMachineVictory
  split_ifs <;> exact ⟨rfl, rfl, rfl, rfl⟩

theorem changeMachineLevel_one (env : Env) (idx : ℕ) (σ : GameState)
    (m : Machine) (hm : σ.machines.get? idx = some m)
    (h : m.level < m.maxLevel) :
    changeMachineLevel env idx 1 false σ =
      (1, checkMachineVictory env { σ with machines :=
        (σ.machines.set idx
          { m with level := m.level + 1, upgradedToday := true }) }) := by
  unfold changeMachineLevel
  rw [hm]
  simp only [increaseLevel_one m h]
  norm_num

theorem holderUpLoop_stop (env : Env) (idx : ℕ) (t : ℤ) (ht : 1 ≤ t)
    (holder : ℤ) (σ : GameState) (lev : Bool)
    (h : ¬(t ≤ holder ∧ neutralLevel σ idx < env.machineMaxLevel)) :
    holderUpLoop env idx t ht holder σ lev = (holder, σ, lev) := by
  rw [holderUpLoop.eq_def, dif_neg h]

theorem holderUpLoop_step (env : Env) (idx : ℕ) (t : ℤ) (ht : 1 ≤ t)
    (holder : ℤ) (σ : GameState) (lev : Bool)
    (h : t ≤ holder ∧ neutralLevel σ idx < env.machineMaxLevel) :
    holderUpLoop env idx t ht holder σ lev =
      holderUpLoop env idx t ht (holder - t)
        (changeMachineLevel env idx 1 false σ).2 true := by
  rw [holderUpLoop.eq_def, dif_pos h]

theorem holderDownLoop_stop (env : Env) (idx : ℕ) (t : ℤ) (ht : 1 ≤ t)
    (holder : ℤ) (σ : GameState) (lev : Bool)
    (h : ¬(holder ≤ -t ∧ 1 < neutralLevel σ idx)) :
    holderDownLoop env idx t ht holder σ lev = (holder, σ, lev) := by
  rw [holderDownLoop.eq_def, dif_neg h]

theorem adjustNeutralHolder_eq (env : Env) (delta : ℤ) (σ : GameState)
    (idx : ℕ) (hn : σ.neutralMachine = some idx) :
    adjustNeutralHolder env delta σ =
      { (holderDownLoop env idx (max 1 env.holderThreshold)
          (le_max_left 1 env.holderThreshold)
          (holderUpLoop env idx (max 1 env.holderThreshold)
            (le_max_left 1 env.holderThreshold) (σ.neutralHolder + delta) σ
            false).1
          (holderUpLoop env idx (max 1 env.holderThreshold)
            (le_max_left 1 env.holderThreshold) (σ.neutralHolder + delta) σ
            false).2.1
          (holderUpLoop env idx (max 1 env.holderThreshold)
            (le_max_left 1 env.holderThreshold) (σ.neutralHolder + delta) σ
            false).2.2).2.1 with
        neutralHolder := max env.holderMin (min env.holderMax
          (holderDownLoop env idx (max 1 env.holderThreshold)
            (le_max_left 1 env.holderThreshold)
            (holderUpLoop env idx (max 1 env.holderThreshold)
              (le_max_left 1 env.holderThreshold) (σ.neutralHolder + delta) σ
              false).1
            (holderUpLoop env idx (max 1 env.holderThreshold)
              (le_max_left 1 env.holderThreshold) (σ.neutralHolder + delta) σ
              false).2.1
            (holderUpLoop env idx (max 1 env.holderThreshold)
              (le_max_left 1 env.holderThreshold) (σ.neutralHolder + delta) σ
              false).2.2).1) } := by
  unfold adjustNeutralHolder
  rw [hn]

theorem beginNewDay_eq (env : Env) (σ : GameState)
    (h : σ.worldProgress.upgradesToday = 0) :
    beginNewDay env σ = applyHolderDayResult env true
      { σ with
          worldProgress := { σ.worldProgress with upgradesToday := 0 }
          machines := σ.machines.map Machine.resetDailyState } := by
  unfold beginNewDay WorldProgression.endOfDay
  simp only [h, decide_True]

theorem applyHolderDayResult_true_eq (env : Env) (σ : GameState) (idx : ℕ)
    (hn : σ.neutralMachine = some idx) (hb : env.holderNoUpgradeBonus ≠ 0) :
    applyHolderDayResult env true σ =
      adjustNeutralHolder env env.holderNoUpgradeBonus σ := by
  unfold applyHolderDayResult
  rw [hn]
  simp only [if_pos hb, if_true, reduceIte]

theorem adjust_plus_two_no_fire (env : Env) (σ : GameState) (idx : ℕ)
    (hn : σ.neutralMachine = some idx) (hthr : env.holderThreshold = 4)
    (hmin : env.holderMin = -4) (hmax : env.holderMax = 4)
    (hh : σ.neutralHolder = 0) :
    adjustNeutralHolder env 2 σ = { σ with neutralHolder := 2 } := by
  rw [adjustNeutralHolder_eq env 2 σ idx hn]
  rw [holderUpLoop_stop _ _ _ _ _ _ _ (by rw [hthr, hh]; norm_num)]
  rw [holderDownLoop_stop _ _ _ _ _ _ _ (by rw [hthr, hh]; norm_num)]
  rw [hh, hmin, hmax]
  norm_num

theorem adjust_plus_two_fire (env : Env) (σ : GameState) (idx : ℕ)
    (hn : σ.neutralMachine = some idx) (hthr : env.holderThreshold = 4)
    (hmin : env.holderMin = -4) (hmax : env.holderMax = 4)
    (hh : σ.neutralHolder = 2)
    (hlvl : neutralLevel σ idx < env.machineMaxLevel) :
    adjustNeutralHolder env 2 σ =
      { (changeMachineLevel env idx 1 false σ).2 with neutralHolder := 0 } := by
  rw [adjustNeutralHolder_eq env 2 σ idx hn]
  rw [holderUpLoop_step _ _ _ _ _ _ _ (by rw [hthr, hh]; exact ⟨by norm_num, hlvl⟩)]
  rw [holderUpLoop_stop _ _ _ _ _ _ _ (by rw [hthr, hh]; norm_num)]
  rw [holderDownLoop_stop _ _ _ _ _ _ _ (by rw [hthr, hh]; norm_num)]
  rw [hh, hmin, hmax, hthr]
  norm_num

theorem dayStep_no_fire (env : Env) (σ : GameState) (idx : ℕ)
    (hthr : env.holderThreshold = 4) (hmin : env.holderMin = -4)
    (hmax : env.holderMax = 4) (hbonus : env.holderNoUpgradeBonus = 2)
    (hn : σ.neutralMachine = some idx)
    (hwp : σ.worldProgress.upgradesToday = 0) (hh : σ.neutralHolder = 0) :
    beginNewDay env σ =
      { σ with
          worldProgress := { σ.worldProgress with upgradesToday := 0 }
          machines := σ.machines.map Machine.resetDailyState
          neutralHolder := 2 } := by
  refine Eq.trans (beginNewDay_eq env σ hwp) ?_
  refine Eq.trans (applyHolderDayResult_true_eq env _ idx (by exact hn)
    (by rw [hbonus]; norm_num)) ?_
  rw [hbonus]
  exact adjust_plus_two_no_fire env _ idx (by exact hn) hthr hmin hmax
    (by exact hh)

theorem dayStep_fire (env : Env) (σ : GameState) (idx : ℕ) (m : Machine)
    (hthr : env.holderThreshold = 4) (hmin : env.holderMin = -4)
    (hmax : env.holderMax = 4) (hbonus : env.holderNoUpgradeBonus = 2)
    (hn : σ.neutralMachine = some idx) (hm : σ.machines.get? idx = some m)
    (hlvl : m.level < m.maxLevel) (hlvl2 : m.level < env.machineMaxLevel)
    (hwp : σ.worldProgress.upgradesToday = 0) (hh : σ.neutralHolder = 2) :
    beginNewDay env σ =
      { checkMachineVictory env
          { σ with
              worldProgress := { σ.worldProgress with upgradesToday := 0 }
              machines := ((σ.machines.map Machine.resetDailyState).set idx
                { Machine.resetDailyState m with
                    level := (Machine.resetDailyState m).level + 1
                    upgradedToday := true }) } with
        neutralHolder := 0 } := by
  refine Eq.trans (beginNewDay_eq env σ hwp) ?_
  refine Eq.trans (applyHolderDayResult_true_eq env _ idx (by exact hn)
    (by rw [hbonus]; norm_num)) ?_
  rw [hbonus]
  refine Eq.trans (adjust_plus_two_fire env _ idx (by exact hn) hthr hmin hmax
    (by exact hh) ?_) ?_
  · show (((σ.machines.map Machine.resetDailyState).get? idx).map
      Machine.level).getD 0 < env.machineMaxLevel
    rw [List.get?_map, hm]
    exact hlvl2
  · have hcl := changeMachineLevel_one env idx
      { σ with
          worldProgress := { σ.worldProgress with upgradesToday := 0 }
          machines := σ.machines.map Machine.resetDailyState }
      (Machine.resetDailyState m)
      (by show (σ.machines.map Machine.resetDailyState).get? idx =
            some (Machine.resetDailyState m)
          rw [List.get?_map, hm]
          rfl)
      (by exact hlvl)
    rw [hcl]

/-- C8: with the neutral-holder threshold set to 4 (clamp range `[-4, 4]`)
and a no-upgrade day bonus of +2, the holder starting at 0 and the neutral
machine below max level, three consecutive no-upgrade day-end transitions
(`_begin_new_day`) accumulate +2 per day for a total of 6; when the holder
reaches the threshold 4 it fires exactly one neutral-machine level-up and
subtracts the threshold, so the neutral machine ends exactly one level
higher and the holder settles at 2. -/
theorem C8_neutral_holder (env : Env) (σ : GameState) (idx : ℕ) (m : Machine)
    (hthr : env.holderThreshold = 4) (hmin : env.holderMin = -4)
    (hmax : env.holderMax = 4) (hbonus : env.holderNoUpgradeBonus = 2)
    (hn : σ.neutralMachine = some idx) (hm : σ.machines.get? idx = some m)
    (hlvl : m.level < m.maxLevel) (hlvl2 : m.level < env.machineMaxLevel)
    (hwp : σ.worldProgress.upgradesToday = 0) (hh : σ.neutralHolder = 0) :
    (beginNewDay env (beginNewDay env (beginNewDay env σ))).neutralHolder = 2 ∧
    ((beginNewDay env (beginNewDay env (beginNewDay env σ))).machines.get?
      idx).map Machine.level = some (m.level + 1) := by
  have hlen : idx < σ.machines.length := (List.get?_eq_some.mp hm).1
  have e1 := dayStep_no_fire env σ idx hthr hmin hmax hbonus hn hwp hh
  have hm1 : (σ.machines.map Machine.resetDailyState).get? idx =
      some (Machine.resetDailyState m) := by
    rw [List.get?_map, hm]
    rfl
  have e2' := dayStep_fire env
    ({ σ with
        worldProgress := { σ.worldProgress with upgradesToday := 0 }
        machines := σ.machines.map Machine.resetDailyState
        neutralHolder := 2 }) idx (Machine.resetDailyState m)
    hthr hmin hmax hbonus hn hm1 hlvl hlvl2 rfl rfl
  have e2 : beginNewDay env (beginNewDay env σ) =
      { checkMachineVictory env
          { σ with
              worldProgress := { σ.worldProgress with upgradesToday := 0 }
              machines :=
                (((σ.machines.map Machine.resetDailyState).map
                    Machine.resetDailyState).set idx
                  { Machine.resetDailyState (Machine.resetDailyState m) with
                      level := m.level + 1
                      upgradedToday := true })
              neutralHolder := 2 } with
        neutralHolder := 0 } := by
    rw [e1]
    exact e2'
  have hn3 : (beginNewDay env (beginNewDay env σ)).neutralMachine =
      some idx := by
    rw [e2]
    show (checkMachineVictory env _).neutralMachine = some idx
    rw [(checkMachineVictory_eqs env _).2.2.1]
    exact hn
  have hw3 : (beginNewDay env (beginNewDay env σ)).worldProgress.upgradesToday
      = 0 := by
    rw [e2]
    show (checkMachineVictory env _).worldProgress.upgradesToday = 0
    rw [(checkMachineVictory_eqs env _).2.2.2]
  have hh3 : (beginNewDay env (beginNewDay env σ)).neutralHolder = 0 := by
    rw [e2]
  have hm3 : (beginNewDay env (beginNewDay env σ)).machines.get? idx =
      some { Machine.resetDailyState (Machine.resetDailyState m) with
          level := m.level + 1
          upgradedToday := true } := by
    rw [e2]
    show (checkMachineVictory env _).machines.get? idx = some _
    rw [(checkMachineVictory_eqs env _).1]
    show ((((σ.machines.map Machine.resetDailyState).map
        Machine.resetDailyState).set idx _).get? idx) = some _
    rw [List.get?_set_eq_of_lt]
    simpa using hlen
  have e3 := dayStep_no_fire env (beginNewDay env (beginNewDay env σ)) idx
    hthr hmin hmax hbonus hn3 hw3 hh3
  constructor
  · rw [e3]
  · rw [e3]
    show (((beginNewDay env (beginNewDay env σ)).machines.map
        Machine.resetDailyState).get? idx).map Machine.level =
      some (m.level + 1)
    rw [List.get?_map, hm3]
    rfl

theorem C8_neutral_holder_witness :
    (beginNewDay testEnv (beginNewDay testEnv (beginNewDay testEnv
      testState))).neutralHolder = 2 ∧
    ((beginNewDay testEnv (beginNewDay testEnv (beginNewDay testEnv
      testState))).machines.get? 0).map Machine.level = some 2 :=
  C8_neutral_holder testEnv testState 0
    (buildNeutralMachine defaultUpgradeCosts 5 [])
    rfl rfl rfl rfl rfl rfl (by decide) (by decide) rfl rfl

theorem setLongHint_eqs (em : EMState) (b : Bool) (now : ℤ) :
    (em.setLongHint b now).nightActive = em.nightActive ∧
    (em.setLongHint b now).currentEvent = em.currentEvent ∧
    (em.setLongHint b now).nextEventTime = em.nextEventTime := by
  unfold EMState.setLongHint EMState.scheduleHint
  split_ifs <;> exact ⟨rfl, rfl, rfl⟩

theorem setLongHint_endNight (em : EMState) (b : Bool) (now : ℤ) :
    (em.endNight.setLongHint b now).nightActive = false ∧
    (em.endNight.setLongHint b now).currentEvent = none ∧
    (em.endNight.setLongHint b now).nextEventTime = none ∧
    (em.endNight.setLongHint b now).hintTime = none := by
  unfold EMState.endNight EMState.setLongHint EMState.scheduleHint
  dsimp only
  split_ifs <;>
    first
      | exact ⟨rfl, rfl, rfl, rfl⟩
      | exact (‹False ∧ _›).1.elim

theorem onDayStart_fields (env : Env) (now : ℤ) (σ : GameState) :
    (onDayStart env now σ).isNight = false ∧
    (onDayStart env now σ).events.nightActive = false ∧
    (onDayStart env now σ).events.currentEvent = none ∧
    (onDayStart env now σ).events.nextEventTime = none ∧
    (onDayStart env now σ).events.hintTime = none ∧
    (onDayStart env now σ).ghosts = [] ∧
    (onDayStart env now σ).borderHalfWidth = (initialBorderExtents env).1 ∧
    (onDayStart env now σ).borderHalfHeight = (initialBorderExtents env).2 ∧
    (onDayStart env now σ).resources = env.refreshDayResources σ.resources ∧
    (onDayStart env now σ).givers = σ.givers.map Giver.resetDaily ∧
    (onDayStart env now σ).npcs = env.spawnNpcs ∧
    (onDayStart env now σ).dayHunter = some env.dayHunterHome := by
  unfold onDayStart
  dsimp only
  split_ifs
  · exact ⟨rfl, (setLongHint_endNight σ.events false now).1,
      (setLongHint_endNight σ.events false now).2.1,
      (setLongHint_endNight σ.events false now).2.2.1,
      (setLongHint_endNight σ.events false now).2.2.2,
      rfl, rfl, rfl, rfl, rfl, rfl, rfl⟩
  · exact ⟨rfl, rfl, rfl, rfl, rfl, rfl, rfl, rfl, rfl, rfl, rfl, rfl⟩

theorem emFrame_fields {σ σ' : GameState} (h : emFrame σ σ') :
    σ'.day = σ.day ∧ σ'.timeMinutes = σ.timeMinutes ∧
    σ'.isNight = σ.isNight ∧ σ'.lightLevel = σ.lightLevel ∧
    σ'.ghosts = σ.ghosts ∧ σ'.resources = σ.resources ∧
    σ'.givers = σ.givers ∧ σ'.npcs = σ.npcs ∧
    σ'.dayHunter = σ.dayHunter ∧ σ'.machines = σ.machines ∧
    σ'.neutralMachine = σ.neutralMachine := by
  obtain ⟨a, b, c, rfl⟩ := h
  exact ⟨rfl, rfl, rfl, rfl, rfl, rfl, rfl, rfl, rfl, rfl, rfl⟩

theorem emUpdate_frame (now : ℤ) (σ : GameState) :
    emFrame σ (emUpdate now σ).2 := by
  unfold emUpdate onRadioHintEffect
  dsimp only
  split_ifs <;> try exact ⟨_, _, _, rfl⟩
  all_goals split <;> exact ⟨_, _, _, rfl⟩

theorem emUpdate_none (now : ℤ) (σ : GameState)
    (h : σ.events.nightActive = false) : (emUpdate now σ).1 = none := by
  unfold emUpdate
  dsimp only
  rw [if_pos (by simp [h])]

theorem eventFrame_refl (σ : GameState) : eventFrame σ σ :=
  ⟨σ.stockpile, σ.rngIdx, σ.machines, σ.worldProgress, σ.victoryTriggered, rfl⟩

theorem eventFrame_trans (σ σ' σ'' : GameState) (h1 : eventFrame σ σ')
    (h2 : eventFrame σ' σ'') : eventFrame σ σ'' := by
  obtain ⟨a, b, c, d, e, rfl⟩ := h1
  obtain ⟨a', b', c', d', e', rfl⟩ := h2
  exact ⟨a', b', c', d', e', rfl⟩

theorem eventFrame_fields {σ σ' : GameState} (h : eventFrame σ σ') :
    σ'.day = σ.day ∧ σ'.timeMinutes = σ.timeMinutes ∧
    σ'.isNight = σ.isNight ∧ σ'.lightLevel = σ.lightLevel ∧
    σ'.events = σ.events ∧ σ'.ghosts = σ.ghosts ∧
    σ'.resources = σ.resources ∧ σ'.givers = σ.givers ∧
    σ'.npcs = σ.npcs ∧ σ'.dayHunter = σ.dayHunter := by
  obtain ⟨a, b, c, d, e, rfl⟩ := h
  exact ⟨rfl, rfl, rfl, rfl, rfl, rfl, rfl, rfl, rfl, rfl⟩

theorem collectCandyStep_frame (env : Env) (candyType : String)
    (σ : GameState) : eventFrame σ (collectCandyStep env candyType σ) := by
  unfold collectCandyStep
  dsimp only
  split_ifs <;> exact ⟨_, _, _, _, _, rfl⟩

theorem eventFrame_iterate (f : GameState → GameState)
    (hf : ∀ σ, eventFrame σ (f σ)) :
    ∀ (n : ℕ) (σ : GameState), eventFrame σ (f^[n] σ) := by
  intro n
  induction n with
  | zero => exact fun σ => eventFrame_refl σ
  | succ k ih =>
      intro σ
      rw [Function.iterate_succ_apply]
      exact eventFrame_trans _ _ _ (hf σ) (ih (f σ))

theorem collectCandy_frame (env : Env) (candyType : String) (amount : ℤ)
    (σ : GameState) : eventFrame σ (collectCandy env candyType amount σ) :=
  eventFrame_iterate (collectCandyStep env candyType)
    (collectCandyStep_frame env candyType) (max 0 amount).toNat σ

theorem changeMachineLevel_eventFrame (env : Env) (idx : ℕ) (delta : ℤ)
    (recordProgress : Bool) (σ : GameState) :
    eventFrame σ (changeMachineLevel env idx delta recordProgress σ).2 := by
  unfold changeMachineLevel checkMachineVictory
  cases σ.machines.get? idx with
  | none => exact eventFrame_refl σ
  | some m =>
      simp only
      split_ifs <;> exact ⟨_, _, _, _, _, rfl⟩

theorem applyEventOutcome_frame (env : Env) (success : Bool) (σ : GameState) :
    eventFrame σ (applyEventOutcome env success σ) := by
  unfold applyEventOutcome
  split
  · show eventFrame σ (CANDY_TYPES.foldl
      (fun s candy => collectCandy env candy env.eventSuccessCandyReward s) σ)
    simp only [CANDY_TYPES, List.foldl]
    refine eventFrame_trans _ _ _ ?_ (collectCandy_frame env _ _ _)
    refine eventFrame_trans _ _ _ ?_ (collectCandy_frame env _ _ _)
    refine eventFrame_trans _ _ _ ?_ (collectCandy_frame env _ _ _)
    refine eventFrame_trans _ _ _ ?_ (collectCandy_frame env _ _ _)
    exact collectCandy_frame env _ _ σ
  · cases σ.neutralMachine with
    | none => exact eventFrame_refl σ
    | some idx => exact changeMachineLevel_eventFrame env idx _ true σ

theorem onRadioHintEffect_events (now : ℤ) (b : Bool) (σ : GameState) :
    (onRadioHintEffect now b σ).events.currentEvent =
      σ.events.currentEvent ∧
    (onRadioHintEffect now b σ).events.nextEventTime =
      σ.events.nextEventTime := by
  unfold onRadioHintEffect
  dsimp only
  split_ifs <;>
    first
      | exact ⟨rfl, rfl⟩
      | exact ⟨(setLongHint_eqs _ _ _).2.1, (setLongHint_eqs _ _ _).2.2⟩

theorem emUpdate_fires (now : ℤ) (σ : GameState) (T : ℤ) (ev : EventDefinition)
    (hna : σ.events.nightActive = true)
    (hne : σ.events.nextEventTime = some T) (hT0 : T ≠ 0)
    (hce : σ.events.currentEvent = some ev) (hnow : T ≤ now) :
    ∃ success, (emUpdate now σ).1 = some (ev, success) := by
  unfold emUpdate
  dsimp only
  rw [if_neg (not_not_intro ⟨hna, by rw [hne]; simp [tickTruthy, hT0],
    by rw [hce]; rfl⟩)]
  rw [if_neg (show ¬ now < σ.events.nextEventTime.getD 0 from by
    rw [hne]; exact not_lt.mpr hnow)]
  split_ifs with hc
  · rw [show (onRadioHintEffect now σ.events.longHintEnabled σ).events.currentEvent
        = some ev from
      (onRadioHintEffect_events now σ.events.longHintEnabled σ).1.trans hce]
    exact ⟨_, rfl⟩
  · rw [hce]
    exact ⟨_, rfl⟩

theorem forceNewDay_eq (env : Env) (now : ℤ) (σ : GameState) :
    forceNewDay env now σ = onDayStart env now (beginNewDay env
      { σ with
          events := σ.events.endNight
          isNight := false
          lightLevel := 0
          timeMinutes := DAY_START_HOUR * 60
          day := σ.day + 1 }) := rfl

theorem forceNewDay_fields (env : Env) (now : ℤ) (σ : GameState) :
    (forceNewDay env now σ).day = σ.day + 1 ∧
    (forceNewDay env now σ).timeMinutes = DAY_START_HOUR * 60 ∧
    (forceNewDay env now σ).isNight = false ∧
    (forceNewDay env now σ).lightLevel = 0 ∧
    (forceNewDay env now σ).events.nightActive = false ∧
    (forceNewDay env now σ).events.currentEvent = none ∧
    (forceNewDay env now σ).events.nextEventTime = none ∧
    (forceNewDay env now σ).events.hintTime = none ∧
    (forceNewDay env now σ).ghosts = [] ∧
    (forceNewDay env now σ).borderHalfWidth = (initialBorderExtents env).1 ∧
    (forceNewDay env now σ).borderHalfHeight = (initialBorderExtents env).2 ∧
    (forceNewDay env now σ).resources =
      env.refreshDayResources σ.resources ∧
    (forceNewDay env now σ).givers = σ.givers.map Giver.resetDaily ∧
    (forceNewDay env now σ).npcs = env.spawnNpcs ∧
    (forceNewDay env now σ).dayHunter = some env.dayHunterHome := by
  rw [forceNewDay_eq env now σ]
  obtain ⟨dIsN, dNA, dCE, dNE, dHT, dGh, dBW, dBH, dRes, dGiv, dNpc, dDH⟩ :=
    onDayStart_fields env now (beginNewDay env
      { σ with
          events := σ.events.endNight
          isNight := false
          lightLevel := 0
          timeMinutes := DAY_START_HOUR * 60
          day := σ.day + 1 })
  obtain ⟨bTime, bDay, bIsN, bLight, bEv, bPI, bSP, bGh, bNpc, bDH2, bDHH,
      bDHE, bGiv, bRes, bRB, bBW, bBH, bBTW, bBTH, bNM, bMBC, bRI, bNG⟩ :=
    holderFrame_fields (beginNewDay_frame env
      { σ with
          events := σ.events.endNight
          isNight := false
          lightLevel := 0
          timeMinutes := DAY_START_HOUR * 60
          day := σ.day + 1 })
  obtain ⟨cTime, cDay, cLight⟩ := onDayStart_const env now (beginNewDay env
      { σ with
          events := σ.events.endNight
          isNight := false
          lightLevel := 0
          timeMinutes := DAY_START_HOUR * 60
          day := σ.day + 1 })
  refine ⟨?_, ?_, dIsN, ?_, dNA, dCE, dNE, dHT, dGh, dBW, dBH, ?_, ?_,
    dNpc, dDH⟩
  · rw [cDay, bDay]
  · rw [cTime, bTime]
  · rw [cLight, bLight]
  · rw [dRes, bRes]
  · rw [dGiv, bGiv]

/-- C3: whenever a scheduled event resolves (the night is active, an event is
pending with a truthy trigger tick that has been reached), whether with
success or failure, `_update_events` terminates the night within the same
tick via the forced-day-advance path `_force_new_day`, which invokes the same
`_begin_new_day`/`_on_day_start` transition as the natural clock wrap: the
day counter increments, the clock is set back to day start, `is_night`
becomes false, the light level is reset, all event state is cleared and no
second resolution can fire, the ghosts are cleared, the border is reset to
its maximal extents, the resources are refreshed, givers are reset for the
day, NPCs respawn and the day hunter spawns. -/
theorem C3_forced_day_advance (env : Env) (now : ℤ) (σ : GameState) (T : ℤ)
    (ev : EventDefinition)
    (hna : σ.events.nightActive = true)
    (hne : σ.events.nextEventTime = some T) (hT0 : T ≠ 0)
    (hce : σ.events.currentEvent = some ev) (hnow : T ≤ now) :
    (∃ success,
      (emUpdate now σ).1 = some (ev, success) ∧
      updateEvents env now σ =
        onDayStart env now (beginNewDay env
          { applyEventOutcome env success (emUpdate now σ).2 with
              events := (applyEventOutcome env success
                (emUpdate now σ).2).events.endNight
              isNight := false
              lightLevel := 0
              timeMinutes := DAY_START_HOUR * 60
              day := (applyEventOutcome env success
                (emUpdate now σ).2).day + 1 })) ∧
    (updateEvents env now σ).day = σ.day + 1 ∧
    (updateEvents env now σ).timeMinutes = DAY_START_HOUR * 60 ∧
    (updateEvents env now σ).isNight = false ∧
    (updateEvents env now σ).lightLevel = 0 ∧
    (updateEvents env now σ).events.nightActive = false ∧
    (updateEvents env now σ).events.currentEvent = none ∧
    (updateEvents env now σ).events.nextEventTime = none ∧
    (updateEvents env now σ).events.hintTime = none ∧
    (∀ now', (emUpdate now' (updateEvents env now σ)).1 = none) ∧
    (updateEvents env now σ).ghosts = [] ∧
    (updateEvents env now σ).borderHalfWidth = (initialBorderExtents env).1 ∧
    (updateEvents env now σ).borderHalfHeight = (initialBorderExtents env).2 ∧
    (updateEvents env now σ).resources =
      env.refreshDayResources σ.resources ∧
    (updateEvents env now σ).givers = σ.givers.map Giver.resetDaily ∧
    (updateEvents env now σ).npcs = env.spawnNpcs ∧
    (updateEvents env now σ).dayHunter = some env.dayHunterHome := by
  obtain ⟨success, hfire⟩ := emUpdate_fires now σ T ev hna hne hT0 hce hnow
  have hpair : emUpdate now σ = (some (ev, success), (emUpdate now σ).2) := by
    rw [← hfire]
  have hU : updateEvents env now σ = forceNewDay env now
      (applyEventOutcome env success (emUpdate now σ).2) := by
    unfold updateEvents
    rw [hpair]
  obtain ⟨eADay, eATime, eAIsN, eALight, eAEv, eAGh, eARes, eAGiv, eANpc,
      eADH⟩ :=
    eventFrame_fields (applyEventOutcome_frame env success (emUpdate now σ).2)
  obtain ⟨eEDay, eETime, eEIsN, eELight, eEGh, eERes, eEGiv, eENpc, eEDH,
      eEMach, eENM⟩ :=
    emFrame_fields (emUpdate_frame now σ)
  obtain ⟨fDay, fTime, fIsN, fLight, fNA, fCE, fNE, fHT, fGh, fBW, fBH, fRes,
      fGiv, fNpc, fDH⟩ :=
    forceNewDay_fields env now (applyEventOutcome env success
      (emUpdate now σ).2)
  have hNA : (updateEvents env now σ).events.nightActive = false := by
    rw [hU]; exact fNA
  refine ⟨⟨success, hfire, hU.trans (forceNewDay_eq env now _)⟩,
    ?_, ?_, ?_, ?_, hNA, ?_, ?_, ?_,
    fun now' => emUpdate_none now' _ hNA,
    ?_, ?_, ?_, ?_, ?_, ?_, ?_⟩
  · rw [hU, fDay, eADay, eEDay]
  · rw [hU]; exact fTime
  · rw [hU]; exact fIsN
  · rw [hU]; exact fLight
  · rw [hU]; exact fCE
  · rw [hU]; exact fNE
  · rw [hU]; exact fHT
  · rw [hU]; exact fGh
  · rw [hU]; exact fBW
  · rw [hU]; exact fBH
  · rw [hU, fRes, eARes, eERes]
  · rw [hU, fGiv, eAGiv, eEGiv]
  · rw [hU]; exact fNpc
  · rw [hU]; exact fDH

theorem C3_forced_day_advance_witness :
    (∃ success,
      (emUpdate 5 testState).1 =
        some (⟨"stink", some "Clothes Pin", 1, none⟩, success) ∧
      updateEvents testEnv 5 testState =
        onDayStart testEnv 5 (beginNewDay testEnv
          { applyEventOutcome testEnv success (emUpdate 5 testState).2 with
              events := (applyEventOutcome testEnv success
                (emUpdate 5 testState).2).events.endNight
              isNight := false
              lightLevel := 0
              timeMinutes := DAY_START_HOUR * 60
              day := (applyEventOutcome testEnv success
                (emUpdate 5 testState).2).day + 1 })) ∧
    (updateEvents testEnv 5 testState).day = testState.day + 1 ∧
    (updateEvents testEnv 5 testState).timeMinutes = DAY_START_HOUR * 60 ∧
    (updateEvents testEnv 5 testState).isNight = false ∧
    (updateEvents testEnv 5 testState).lightLevel = 0 ∧
    (updateEvents testEnv 5 testState).events.nightActive = false ∧
    (updateEvents testEnv 5 testState).events.currentEvent = none ∧
    (updateEvents testEnv 5 testState).events.nextEventTime = none ∧
    (updateEvents testEnv 5 testState).events.hintTime = none ∧
    (∀ now', (emUpdate now' (updateEvents testEnv 5 testState)).1 = none) ∧
    (updateEvents testEnv 5 testState).ghosts = [] ∧
    (updateEvents testEnv 5 testState).borderHalfWidth =
      (initialBorderExtents testEnv).1 ∧
    (updateEvents testEnv 5 testState).borderHalfHeight =
      (initialBorderExtents testEnv).2 ∧
    (updateEvents testEnv 5 testState).resources =
      testEnv.refreshDayResources testState.resources ∧
    (updateEvents testEnv 5 testState).givers =
      testState.givers.map Giver.resetDaily ∧
    (updateEvents testEnv 5 testState).npcs = testEnv.spawnNpcs ∧
    (updateEvents testEnv 5 testState).dayHunter =
      some testEnv.dayHunterHome :=
  C3_forced_day_advance testEnv 5 testState 5
    ⟨"stink", some "Clothes Pin", 1, none⟩ rfl rfl (by decide) rfl (by decide)
